import Mathlib

/-!
Verification development for the gh-config-cli reconciliation engine.

The definitions below are a shallow embedding of the Rust sources:
  * `src/config.rs`   — configuration tree model and `merge_with_defaults`
  * `src/github.rs`   — the `GitHubClient` reconcilers (`update_repo_settings`,
    `manage_webhooks`, `create_team`, `add_user_to_org`, `assign_team_to_repo`,
    `get_team_repo_permission`, `sync`, `diff`)
  * `src/api_mapping.rs` — the field mapping table shape

YAML/JSON values are modelled by the inductive `Yaml`; mapping keys are
restricted to strings, which is the shape every configuration file in this
program uses (`serde_yaml::Mapping` preserves insertion order, so mappings are
association lists here).  HTTP transport is an oracle (`GhEnv`): each operation
returns its result together with the chronological list of HTTP requests it
issued and the error/info log lines it emitted.  Serde parsing is external to
the program and is represented by payload shapes the oracle may return.
-/

set_option maxHeartbeats 1000000

namespace GhConfig

/-- A YAML/JSON value (`serde_yaml::Value`).  Mappings keep insertion order,
as `serde_yaml::Mapping` does (it is backed by an insertion-ordered map);
keys are strings, which covers every document this program manipulates. -/
inductive Yaml where
  | null
  | bool (b : Bool)
  | int (n : Int)
  | str (s : String)
  | seq (xs : List Yaml)
  | map (es : List (String × Yaml))


mutual

/-- Decidable structural equality on `Yaml` values. -/
def Yaml.decEq : (a b : Yaml) → Decidable (a = b)
  | .null, .null => .isTrue rfl
  | .bool a, .bool b =>
    match Bool.decEq a b with
    | .isTrue h => .isTrue (by rw [h])
    | .isFalse h => .isFalse (fun hh => h (by cases hh; rfl))
  | .int a, .int b =>
    match Int.decEq a b with
    | .isTrue h => .isTrue (by rw [h])
    | .isFalse h => .isFalse (fun hh => h (by cases hh; rfl))
  | .str a, .str b =>
    match String.decEq a b with
    | .isTrue h => .isTrue (by rw [h])
    | .isFalse h => .isFalse (fun hh => h (by cases hh; rfl))
  | .seq xs, .seq ys =>
    match Yaml.decEqL xs ys with
    | .isTrue h => .isTrue (by rw [h])
    | .isFalse h => .isFalse (fun hh => h (by cases hh; rfl))
  | .map es, .map fs =>
    match Yaml.decEqM es fs with
    | .isTrue h => .isTrue (by rw [h])
    | .isFalse h => .isFalse (fun hh => h (by cases hh; rfl))
  | .null, .bool _ => .isFalse (fun h => by cases h)
  | .null, .int _ => .isFalse (fun h => by cases h)
  | .null, .str _ => .isFalse (fun h => by cases h)
  | .null, .seq _ => .isFalse (fun h => by cases h)
  | .null, .map _ => .isFalse (fun h => by cases h)
  | .bool _, .null => .isFalse (fun h => by cases h)
  | .bool _, .int _ => .isFalse (fun h => by cases h)
  | .bool _, .str _ => .isFalse (fun h => by cases h)
  | .bool _, .seq _ => .isFalse (fun h => by cases h)
  | .bool _, .map _ => .isFalse (fun h => by cases h)
  | .int _, .null => .isFalse (fun h => by cases h)
  | .int _, .bool _ => .isFalse (fun h => by cases h)
  | .int _, .str _ => .isFalse (fun h => by cases h)
  | .int _, .seq _ => .isFalse (fun h => by cases h)
  | .int _, .map _ => .isFalse (fun h => by cases h)
  | .str _, .null => .isFalse (fun h => by cases h)
  | .str _, .bool _ => .isFalse (fun h => by cases h)
  | .str _, .int _ => .isFalse (fun h => by cases h)
  | .str _, .seq _ => .isFalse (fun h => by cases h)
  | .str _, .map _ => .isFalse (fun h => by cases h)
  | .seq _, .null => .isFalse (fun h => by cases h)
  | .seq _, .bool _ => .isFalse (fun h => by cases h)
  | .seq _, .int _ => .isFalse (fun h => by cases h)
  | .seq _, .str _ => .isFalse (fun h => by cases h)
  | .seq _, .map _ => .isFalse (fun h => by cases h)
  | .map _, .null => .isFalse (fun h => by cases h)
  | .map _, .bool _ => .isFalse (fun h => by cases h)
  | .map _, .int _ => .isFalse (fun h => by cases h)
  | .map _, .str _ => .isFalse (fun h => by cases h)
  | .map _, .seq _ => .isFalse (fun h => by cases h)

/-- Decidable structural equality on `Yaml` sequences. -/
def Yaml.decEqL : (xs ys : List Yaml) → Decidable (xs = ys)
  | [], [] => .isTrue rfl
  | [], _ :: _ => .isFalse (fun h => by cases h)
  | _ :: _, [] => .isFalse (fun h => by cases h)
  | x :: xs, y :: ys =>
    match Yaml.decEq x y with
    | .isFalse h1 => .isFalse (fun hh => h1 (by cases hh; rfl))
    | .isTrue h1 =>
      match Yaml.decEqL xs ys with
      | .isTrue h2 => .isTrue (by rw [h1, h2])
      | .isFalse h2 => .isFalse (fun hh => h2 (by cases hh; rfl))

/-- Decidable structural equality on `Yaml` mapping entry lists. -/
def Yaml.decEqM : (xs ys : List (String × Yaml)) → Decidable (xs = ys)
  | [], [] => .isTrue rfl
  | [], _ :: _ => .isFalse (fun h => by cases h)
  | _ :: _, [] => .isFalse (fun h => by cases h)
  | (k, v) :: xs, (k2, v2) :: ys =>
    match String.decEq k k2 with
    | .isFalse h1 => .isFalse (fun hh => h1 (by cases hh; rfl))
    | .isTrue h1 =>
      match Yaml.decEq v v2 with
      | .isFalse h2 => .isFalse (fun hh => h2 (by cases hh; rfl))
      | .isTrue h2 =>
        match Yaml.decEqM xs ys with
        | .isTrue h3 => .isTrue (by rw [h1, h2, h3])
        | .isFalse h3 => .isFalse (fun hh => h3 (by cases hh; rfl))

end

instance : DecidableEq Yaml := Yaml.decEq

/-- `serde_yaml::Mapping::remove` uses swap-remove semantics: the removed
entry is replaced by the last entry of the map. -/
def swapRemove (m : List (String × Yaml)) (k : String) :
    Option Yaml × List (String × Yaml) :=
  match m.findIdx? (fun p => p.1 == k) with
  | none => (none, m)
  | some i =>
    let v := (m.getD i ("", Yaml.null)).2
    let last := m.getLastD ("", Yaml.null)
    (some v, (m.set i last).dropLast)

/-- Insertion-ordered map insert: replace in place if the key is present,
append otherwise (`serde_yaml::Mapping::insert`). -/
def mapInsert (m : List (String × Yaml)) (k : String) (v : Yaml) :
    List (String × Yaml) :=
  if m.any (fun p => p.1 == k) then
    m.map (fun p => if p.1 == k then (k, v) else p)
  else m ++ [(k, v)]

/-- The `name` natural key of a sequence element: a string value under the
`"name"` key of a mapping element, and `none` for any other element shape. -/
def elemName : Yaml → Option String
  | .map es =>
    match es.lookup "name" with
    | some (.str s) => some s
    | _ => none
  | _ => none

/-- Index of the first element of `l` whose `name` key equals `nm`
(the inner search loop of `merge_with_defaults` for sequences). -/
def findIdxByName : List Yaml → String → Option Nat
  | [], _ => none
  | m :: rest, nm =>
    if elemName m == some nm then some 0
    else (findIdxByName rest nm).map (· + 1)

/-- Guard of the special case inside the mapping branch of
`merge_with_defaults`: main value an empty sequence and default value a
non-empty sequence. -/
def isEmptySeqPair : Yaml → Yaml → Bool
  | .seq s, .seq ds => s.isEmpty && !ds.isEmpty
  | _, _ => false

/-- The final `for (i, m) in main_seq.into_iter().enumerate()` loop of the
sequence branch: keep the main elements whose index was not marked used.
`n` is the index of the head of the remaining list. -/
def dropUsed (used : List Nat) : Nat → List Yaml → List Yaml
  | _, [] => []
  | n, m :: rest =>
    if n ∈ used then dropUsed used (n + 1) rest
    else m :: dropUsed used (n + 1) rest

mutual

/-- `merge_with_defaults` from `src/config.rs`: recursively merges a defaults
tree into a main tree, main winning on conflicts, with the empty-sequence
override and element-wise merge of sequences by the `name` key. -/
def merge_with_defaults : Yaml → Yaml → Yaml
  | .map mainMap, .map defaultsMap => .map (mergeMapEntries mainMap defaultsMap)
  | .seq mainSeq, .seq defaultsSeq =>
    if mainSeq.isEmpty then .seq defaultsSeq
    else
      let res := mergeSeqGo mainSeq defaultsSeq []
      .seq (res.1 ++ dropUsed res.2 0 mainSeq)
  | main, _ => main

/-- The `for (k, v_default) in defaults_map` loop of `merge_with_defaults`:
the main map is mutated entry by entry (remove, merge, re-insert).  The
guard `isEmptySeqPair` is the special case of the source: an empty main
sequence paired with a non-empty default sequence takes the default value
directly, every other pairing recurses. -/
def mergeMapEntries : List (String × Yaml) → List (String × Yaml) →
    List (String × Yaml)
  | mainMap, [] => mainMap
  | mainMap, (k, vDefault) :: rest =>
    match swapRemove mainMap k with
    | (some vMain, mainMap') =>
      let merged :=
        if isEmptySeqPair vMain vDefault then vDefault
        else merge_with_defaults vMain vDefault
      mergeMapEntries (mapInsert mainMap' k merged) rest
    | (none, _) => mergeMapEntries (mapInsert mainMap k vDefault) rest

/-- The `for d in &defaults_seq` loop of the sequence branch of
`merge_with_defaults`.  The second component collects the indices of main
elements consumed by a name match (the `used` vector of booleans, modelled
by the set of indices holding `true`). -/
def mergeSeqGo (mainSeq : List Yaml) : List Yaml → List Nat →
    List Yaml × List Nat
  | [], used => ([], used)
  | d :: rest, used =>
    match elemName d with
    | some dName =>
      match findIdxByName mainSeq dName with
      | some i =>
        let m := mainSeq.getD i .null
        let res := mergeSeqGo mainSeq rest (i :: used)
        (merge_with_defaults m d :: res.1, res.2)
      | none =>
        let res := mergeSeqGo mainSeq rest used
        (d :: res.1, res.2)
    | none =>
      let res := mergeSeqGo mainSeq rest used
      (d :: res.1, res.2)

end

/-! ### Declarative description of the sequence merge (for claim C9)

`mergeSeqGo` above is the literal used-flags algorithm of the source.  The
definitions below describe its output declaratively — defaults processed in
order, followed by the unmatched main elements — and are compared against the
algorithm by theorem. -/

/-- Index of the main element consumed by default element `d`: the first
main element whose `name` equals `d`s `name`, if any. -/
def matchIdx (mainSeq : List Yaml) (d : Yaml) : Option Nat :=
  match elemName d with
  | some nm => findIdxByName mainSeq nm
  | none => none

/-- Declarative image of one default element in the merged sequence: a
name-matched default is replaced by the recursive merge with the first
name-matching main element; anything else passes through unchanged. -/
def specStep (mainSeq : List Yaml) (d : Yaml) : Yaml :=
  match elemName d with
  | some nm =>
    match mainSeq.find? (fun m => elemName m == some nm) with
    | some m => merge_with_defaults m d
    | none => d
  | none => d

/-- Declarative keep-predicate for main elements: a main element survives to
the tail of the merged sequence iff no default element bears its name
(unnamed main elements always survive). -/
def keepsAgainst (ds : List Yaml) (m : Yaml) : Bool :=
  match elemName m with
  | some nm => !(ds.any (fun d => elemName d == some nm))
  | none => true

/-! ### Configuration tree model (`src/config.rs`) -/

/-- `WebhookConfig`: endpoint URL, payload content type, triggering events.
`events` is a `Vec<String>` in the source: an ordered list. -/
structure WebhookConfig where
  url : String
  content_type : String
  events : List String
  deriving DecidableEq

/-- `BranchProtectionRule` from `src/config.rs`. -/
structure BranchProtectionRule where
  pattern : String
  enforce_admins : Bool
  allow_deletions : Bool
  allow_force_pushes : Bool
  deriving DecidableEq

/-- `Repo`: the settings bag is a `HashMap<String, Value>`; the association
list records the iteration order of that map, which the program never
controls. -/
structure Repo where
  name : String
  settings : List (String × Yaml)
  visibility : Option String
  webhook : Option WebhookConfig
  branch_protections : List BranchProtectionRule
  extra : List (String × Yaml)
  deriving DecidableEq

/-- `Team` from `src/config.rs`. -/
structure Team where
  name : String
  members : List String
  deriving DecidableEq

/-- `User` from `src/config.rs`. -/
structure User where
  login : String
  role : String
  deriving DecidableEq

/-- `Assignment` from `src/config.rs`. -/
structure Assignment where
  repo : String
  team : String
  permission : String
  deriving DecidableEq

/-- Top-level `Config` from `src/config.rs`. -/
structure Config where
  org : String
  repos : List Repo
  teams : List Team
  users : List User
  assignments : List Assignment
  default_webhook : Option WebhookConfig
  default_branch_protections : List BranchProtectionRule
  extra : List (String × Yaml)
  deriving DecidableEq

/-- `ApiFieldMapping` from `src/api_mapping.rs`. -/
structure ApiFieldMapping where
  resource_type : String
  config_key : String
  endpoint : String
  method : String
  json_path : String
  deriving DecidableEq

/-! ### HTTP oracle and operation traces (`src/github.rs`)

Each `GitHubClient` method is embedded as a function from an HTTP oracle
(`GhEnv`) to an `OpOut`: the `Result` of the method together with the
chronological list of HTTP requests it issued and the `error!`/`info!` log
lines it emitted (`debug!` lines are not tracked).  The bearer token and
header plumbing are external transport concerns; the token is assumed
non-empty (an empty token fails every operation uniformly in the source). -/

/-- `AppError` from `src/error.rs` (the variants the client code builds). -/
inductive AppErr where
  | gitHubApi (msg : String)
  | http (msg : String)
  | serialization (msg : String)
  | io (msg : String)
  deriving DecidableEq

/-- One HTTP request issued by the client. -/
structure Request where
  method : String
  url : String
  body : Option Yaml
  deriving DecidableEq

/-- `WebhookConfigResponse` (deserialized hook config). -/
structure WebhookConfigResponse where
  url : String
  content_type : String
  deriving DecidableEq

/-- `WebhookResponse` (deserialized repository hook). -/
structure WebhookResponse where
  id : Option Int
  url : String
  config : WebhookConfigResponse
  events : List String
  deriving DecidableEq

/-- `PermissionDetails` (deserialized team-repo permission flags). -/
structure PermissionDetails where
  pull : Bool
  push : Bool
  admin : Bool
  deriving DecidableEq

/-- `TeamRepoResponse` (deserialized team-repo entry). -/
structure TeamRepoResponse where
  name : String
  permissions : PermissionDetails
  deriving DecidableEq

/-- Body of a successful GET as seen after serde parsing: empty, one of the
payload shapes the client can deserialize, or something that fails to
parse as the expected shape. -/
inductive RawBody where
  | emptyBody
  | repoJson (settings : List (String × Yaml))
  | teamJson (name : String)
  | membershipJson (role : String)
  | teamRepoJson (resp : TeamRepoResponse)
  | hooksJson (hooks : List WebhookResponse)
  | otherJson
  deriving DecidableEq

/-- The HTTP oracle: result of a GET on a URL (non-2xx responses surface as
`AppErr.gitHubApi` carrying the response body text, as in `GitHubClient::get`),
and the outcome of a mutating request (method, url, body). -/
structure GhEnv where
  rawGet : String → Except AppErr RawBody
  write : String → String → Option Yaml → Except AppErr Unit

/-- Chronological requests plus `error!` and `info!` log lines. -/
structure Trace where
  requests : List Request
  errs : List String
  infos : List String
  deriving DecidableEq

/-- The empty trace. -/
def Trace.nil : Trace := ⟨[], [], []⟩

/-- Trace concatenation (chronological order). -/
def Trace.append (a b : Trace) : Trace :=
  ⟨a.requests ++ b.requests, a.errs ++ b.errs, a.infos ++ b.infos⟩

/-- Outcome of one client operation: its `Result` and its trace. -/
structure OpOut (α : Type) where
  res : Except AppErr α
  trace : Trace

/-- Sequencing of operations: the second runs only when the first
succeeded (the `?` operator); traces concatenate. -/
def OpOut.bind {α β : Type} (x : OpOut α) (f : α → OpOut β) : OpOut β :=
  match x.res with
  | .ok a => ⟨(f a).res, x.trace.append (f a).trace⟩
  | .error e => ⟨.error e, x.trace⟩

instance : Monad OpOut where
  pure a := ⟨.ok a, Trace.nil⟩
  bind := OpOut.bind

/-- `error!` log line (operation succeeds). -/
def logError (msg : String) : OpOut Unit := ⟨.ok (), ⟨[], [msg], []⟩⟩

/-- `info!` log line (operation succeeds). -/
def logInfo (msg : String) : OpOut Unit := ⟨.ok (), ⟨[], [], [msg]⟩⟩

/-- Failure without further effects. -/
def opFail {α : Type} (e : AppErr) : OpOut α := ⟨.error e, Trace.nil⟩

/-- Failure accompanied by an `error!` log line. -/
def opFailLog {α : Type} (e : AppErr) (msg : String) : OpOut α :=
  ⟨.error e, ⟨[], [msg], []⟩⟩

/-- Run an operation and capture its `Result` instead of propagating
(a `match` on the result in the source). -/
def attempt {α : Type} (x : OpOut α) : OpOut (Except AppErr α) :=
  ⟨.ok x.res, x.trace⟩

/-- Whether `p` is a character-list prefix of the second argument. -/
def pfxAt : List Char → List Char → Bool
  | [], _ => true
  | _ :: _, [] => false
  | p :: ps, c :: cs => p == c && pfxAt ps cs

/-- Whether `pat` occurs as a contiguous sublist. -/
def hasSubList (pat : List Char) : List Char → Bool
  | [] => pfxAt pat []
  | c :: cs => pfxAt pat (c :: cs) || hasSubList pat cs

/-- Substring test (`str::contains`). -/
def containsSub (s pat : String) : Bool := hasSubList pat.data s.data

/-- The constant `GITHUB_API_BASE_URL`. -/
def GITHUB_API_BASE_URL : String := "https://api.github.com"

/-- `url.trim().is_empty()`: a trimmed string is empty exactly when every
character of the string is whitespace (stated over the character list so
it evaluates). -/
def trimEmpty (s : String) : Bool := s.data.all Char.isWhitespace

/-- `GitHubClient::get`: empty-URL guard, then issue the GET; a failed GET
logs and propagates the error. -/
def httpGet (env : GhEnv) (url : String) : OpOut RawBody :=
  if trimEmpty url then
    opFailLog (.gitHubApi "Internal error: Attempted GET with empty URL")
      "URL passed to get() is empty!"
  else
    match env.rawGet url with
    | .ok b => ⟨.ok b, ⟨[⟨"GET", url, none⟩], [], []⟩⟩
    | .error e => ⟨.error e, ⟨[⟨"GET", url, none⟩], ["GET " ++ url ++ " failed"], []⟩⟩

/-- `GitHubClient::send_patch`: empty-URL guard, then issue the PATCH. -/
def send_patch (env : GhEnv) (url : String) (body : Yaml) : OpOut Unit :=
  if trimEmpty url then
    opFailLog (.gitHubApi "Internal error: Attempted PATCH with empty URL")
      "URL passed to send_patch() is empty!"
  else
    match env.write "PATCH" url (some body) with
    | .ok _ => ⟨.ok (), ⟨[⟨"PATCH", url, some body⟩], [], []⟩⟩
    | .error e =>
      ⟨.error e, ⟨[⟨"PATCH", url, some body⟩], ["PATCH " ++ url ++ " failed"], []⟩⟩

/-- `GitHubClient::send_post` (its guard blocks are empty in the source). -/
def send_post (env : GhEnv) (url : String) (body : Yaml) : OpOut Unit :=
  match env.write "POST" url (some body) with
  | .ok _ => ⟨.ok (), ⟨[⟨"POST", url, some body⟩], [], []⟩⟩
  | .error e =>
    ⟨.error e, ⟨[⟨"POST", url, some body⟩], ["POST " ++ url ++ " failed"], []⟩⟩

/-- `GitHubClient::send_put` (optional body, no guards). -/
def send_put (env : GhEnv) (url : String) (body : Option Yaml) : OpOut Unit :=
  match env.write "PUT" url body with
  | .ok _ => ⟨.ok (), ⟨[⟨"PUT", url, body⟩], [], []⟩⟩
  | .error e =>
    ⟨.error e, ⟨[⟨"PUT", url, body⟩], ["PUT " ++ url ++ " failed"], []⟩⟩

/-- Human-readable text of an error (used in log lines). -/
def errText : AppErr → String
  | .gitHubApi msg => msg
  | .http msg => msg
  | .serialization msg => msg
  | .io msg => msg

/-- URL of `GET /repos/{org}/{repo}` (`get_repo_settings`). -/
def repoUrl (org repoName : String) : String :=
  GITHUB_API_BASE_URL ++ "/repos/" ++ org ++ "/" ++ repoName

/-- URL of `GET /orgs/{org}/teams/{team}` (`get_team`). -/
def teamUrl (org teamName : String) : String :=
  GITHUB_API_BASE_URL ++ "/orgs/" ++ org ++ "/teams/" ++ teamName

/-- URL of `GET/PUT /orgs/{org}/memberships/{login}`. -/
def membershipUrl (org login : String) : String :=
  GITHUB_API_BASE_URL ++ "/orgs/" ++ org ++ "/memberships/" ++ login

/-- URL of `GET/POST /repos/{org}/{repo}/hooks`. -/
def hooksUrl (org repoName : String) : String :=
  GITHUB_API_BASE_URL ++ "/repos/" ++ org ++ "/" ++ repoName ++ "/hooks"

/-- URL of `POST /orgs/{org}/teams` (team creation). -/
def teamsUrl (org : String) : String :=
  GITHUB_API_BASE_URL ++ "/orgs/" ++ org ++ "/teams"

/-- URL of `PUT /orgs/{org}/teams/{team}/memberships/{member}`. -/
def teamMembershipUrl (org teamName member : String) : String :=
  GITHUB_API_BASE_URL ++ "/orgs/" ++ org ++ "/teams/" ++ teamName ++
    "/memberships/" ++ member

/-- URL of `GET/PUT /orgs/{org}/teams/{team}/repos/{org}/{repo}`. -/
def teamRepoUrl (org teamName repoName : String) : String :=
  GITHUB_API_BASE_URL ++ "/orgs/" ++ org ++ "/teams/" ++ teamName ++
    "/repos/" ++ org ++ "/" ++ repoName

/-- `get_repo_settings`: GET the repo object and flatten its string-keyed
fields into a settings map.  An empty body is an error; so is a body that
fails to parse as a JSON object. -/
def get_repo_settings (env : GhEnv) (org repoName : String) :
    OpOut (List (String × Yaml)) := do
  let body ← httpGet env (repoUrl org repoName)
  match body with
  | .emptyBody =>
    opFailLog (.gitHubApi "Empty response body")
      ("Empty response body from GET " ++ repoUrl org repoName)
  | .repoJson settings => pure settings
  | _ =>
    opFail (.gitHubApi ("Failed to parse response from " ++ repoUrl org repoName))

/-- `get_team`: GET the team; a GitHub API error containing `404` is
absence (`none`); an empty body is an error; the parsed team counts only if
its name equals the requested name. -/
def get_team (env : GhEnv) (org teamName : String) : OpOut (Option String) := do
  let r ← attempt (httpGet env (teamUrl org teamName))
  match r with
  | .ok .emptyBody =>
    opFailLog (.gitHubApi "Empty response body")
      ("Empty response body from GET " ++ teamUrl org teamName)
  | .ok (.teamJson nm) => if nm == teamName then pure (some nm) else pure none
  | .ok _ =>
    opFail (.gitHubApi ("Failed to parse response from " ++ teamUrl org teamName))
  | .error (.gitHubApi e) =>
    if containsSub e "404" then pure none else opFail (.gitHubApi e)
  | .error e => opFail e

/-- `get_user_membership`: GET the membership; `404` is absence; an empty
body is an error; otherwise the parsed role. -/
def get_user_membership (env : GhEnv) (org login : String) :
    OpOut (Option String) := do
  let r ← attempt (httpGet env (membershipUrl org login))
  match r with
  | .ok .emptyBody =>
    opFailLog (.gitHubApi "Empty response body")
      ("Empty response body from GET " ++ membershipUrl org login)
  | .ok (.membershipJson role) => pure (some role)
  | .ok _ =>
    opFail (.gitHubApi ("Failed to parse response from " ++ membershipUrl org login))
  | .error (.gitHubApi e) =>
    if containsSub e "404" then pure none else opFail (.gitHubApi e)
  | .error e => opFail e

/-- `get_webhooks`: GET the hook list; any body that does not parse as a
hook list (including an empty body) is an error. -/
def get_webhooks (env : GhEnv) (org repoName : String) :
    OpOut (List WebhookResponse) := do
  let body ← httpGet env (hooksUrl org repoName)
  match body with
  | .hooksJson hooks => pure hooks
  | _ => opFail (.gitHubApi "Failed to parse webhooks")

/-- `get_team_repo_permission`: GET the team-repo entry; `404` is absence;
an EMPTY body is read as permission `push` (the source assumes the
permission exists but is not detailed); otherwise the highest flag among
admin/push/pull wins, else `none` (the string). -/
def get_team_repo_permission (env : GhEnv) (org teamName repoName : String) :
    OpOut (Option String) := do
  let r ← attempt (httpGet env (teamRepoUrl org teamName repoName))
  match r with
  | .ok .emptyBody => pure (some "push")
  | .ok (.teamRepoJson resp) =>
    let permission :=
      if resp.permissions.admin then "admin"
      else if resp.permissions.push then "push"
      else if resp.permissions.pull then "pull"
      else "none"
    pure (some permission)
  | .ok _ =>
    opFail (.gitHubApi ("Failed to parse response from " ++
      teamRepoUrl org teamName repoName))
  | .error (.gitHubApi e) =>
    if containsSub e "404" then pure none else opFail (.gitHubApi e)
  | .error e => opFail e

/-- Body of `create_webhook` (POST). -/
def webhookCreateBody (webhook : WebhookConfig) : Yaml :=
  .map [("name", .str "web"), ("active", .bool true),
    ("events", .seq (webhook.events.map .str)),
    ("config", .map [("url", .str webhook.url),
      ("content_type", .str webhook.content_type),
      ("insecure_ssl", .str "0")])]

/-- Body of `update_webhook` (PATCH; no `name`/`active`). -/
def webhookUpdateBody (webhook : WebhookConfig) : Yaml :=
  .map [("events", .seq (webhook.events.map .str)),
    ("config", .map [("url", .str webhook.url),
      ("content_type", .str webhook.content_type),
      ("insecure_ssl", .str "0")])]

/-- `create_webhook`: POST the hook to the repo hooks collection. -/
def create_webhook (env : GhEnv) (org repoName : String)
    (webhook : WebhookConfig) : OpOut Unit := do
  logInfo ("Creating webhook for " ++ org ++ "/" ++ repoName)
  send_post env (hooksUrl org repoName) (webhookCreateBody webhook)

/-- `update_webhook`: PATCH the hook by id. -/
def update_webhook (env : GhEnv) (org repoName : String) (hookId : Int)
    (webhook : WebhookConfig) : OpOut Unit := do
  logInfo ("Updating webhook " ++ toString hookId ++ " for " ++ org ++ "/" ++ repoName)
  send_patch env (hooksUrl org repoName ++ "/" ++ toString hookId)
    (webhookUpdateBody webhook)

/-- `manage_webhooks`: read the current hooks, match by `config.url`, then
create / update / no-op.  The events comparison `hook.events != webhook.events`
is `Vec<String>` equality in the source: ordered list equality.  The
`hook.id.unwrap()` of the source is modelled as an error on `none`. -/
def manage_webhooks (env : GhEnv) (org repoName : String)
    (webhook : WebhookConfig) (dryRun : Bool) : OpOut Unit := do
  let currentHooks ← get_webhooks env org repoName
  let existing := currentHooks.find? (fun h => h.config.url == webhook.url)
  if dryRun then
    match existing with
    | some hook =>
      if hook.events ≠ webhook.events ∨ hook.config.content_type ≠ webhook.content_type then
        logInfo ("[Dry Run] Would update webhook for " ++ org ++ "/" ++ repoName)
      else pure ()
    | none => logInfo ("[Dry Run] Would create webhook for " ++ org ++ "/" ++ repoName)
  else
    match existing with
    | some hook =>
      if hook.events ≠ webhook.events ∨ hook.config.content_type ≠ webhook.content_type then
        match hook.id with
        | some hid => update_webhook env org repoName hid webhook
        | none => opFail (.gitHubApi "panic: called unwrap on a None hook id")
      else pure ()
    | none => create_webhook env org repoName webhook

/-- One pending batch of `update_repo_settings`: the entry of the
`HashMap<String, (String, serde_json::Map<..>)>` keyed by the full URL,
storing the HTTP method of the first grouped key and the accumulated body.
(The body is a `serde_json::Map`; entries are kept here in insertion order,
which is irrelevant to every claim about batch contents.) -/
structure PendingEntry where
  url : String
  method : String
  body : List (String × Yaml)
  deriving DecidableEq

/-- `serde_json::Map::insert`: replace in place or append. -/
def bodyInsert (body : List (String × Yaml)) (k : String) (v : Yaml) :
    List (String × Yaml) :=
  if body.any (fun p => p.1 == k) then
    body.map (fun p => if p.1 == k then (k, v) else p)
  else body ++ [(k, v)]

/-- `pending_updates.entry(full_url).or_insert_with(..)` followed by the
body insert: grouping is keyed by the full URL only; the stored method is
the one of the first key grouped into the entry. -/
def addPending (pends : List PendingEntry) (url method jsonPath : String)
    (v : Yaml) : List PendingEntry :=
  if pends.any (fun p => p.url == url) then
    pends.map (fun p =>
      if p.url == url then ⟨p.url, p.method, bodyInsert p.body jsonPath v⟩ else p)
  else pends ++ [⟨url, method, [(jsonPath, v)]⟩]

/-- `str::replace` on character lists, scanning left to right and replacing
every non-overlapping occurrence of `pat`; the fuel argument is the length
of the scanned list, which bounds the recursion (this keeps the definition
structural so that it evaluates). -/
def replaceFuel (pat rep : List Char) : Nat → List Char → List Char
  | 0, s => s
  | _ + 1, [] => []
  | fuel + 1, c :: rest =>
    if pat.isPrefixOf (c :: rest) && !pat.isEmpty then
      rep ++ replaceFuel pat rep fuel (List.drop (pat.length - 1) rest)
    else c :: replaceFuel pat rep fuel rest

/-- `str::replace`: replace every occurrence of `pat` in `s` by `rep`. -/
def replaceStr (s pat rep : String) : String :=
  ⟨replaceFuel pat.data rep.data s.data.length s.data⟩

/-- Placeholder substitution of the endpoint template
(`{org}`/`{owner}`/`{repo}`). -/
def substEndpoint (org repoName endpoint : String) : String :=
  replaceStr (replaceStr (replaceStr endpoint "{org}" org) "{owner}" org)
    "{repo}" repoName

/-- The scanning loop of `update_repo_settings`: walk the desired settings
(in the iteration order of the settings map), skip unmapped keys and keys
whose desired value equals the observed value, group the rest into pending
batches keyed by the substituted full URL. -/
def computePending (mapping : String → Option ApiFieldMapping)
    (org repoName : String) (current : List (String × Yaml)) :
    List (String × Yaml) → List PendingEntry → List PendingEntry
  | [], pends => pends
  | (k, vDesired) :: rest, pends =>
    match mapping k with
    | some fieldMap =>
      if current.lookup k ≠ some vDesired then
        computePending mapping org repoName current rest
          (addPending pends
            (GITHUB_API_BASE_URL ++ substEndpoint org repoName fieldMap.endpoint)
            fieldMap.method fieldMap.json_path vDesired)
      else computePending mapping org repoName current rest pends
    | none => computePending mapping org repoName current rest pends

/-- The `match method.as_str()` dispatch of the apply loop: one write for
PATCH/PUT/POST, an `error!` log (and nothing else) for any other method. -/
def dispatchWrite (env : GhEnv) (url : String) (body : List (String × Yaml)) :
    String → OpOut Unit
  | "PATCH" => send_patch env url (.map body)
  | "PUT" => send_put env url (some (.map body))
  | "POST" => send_post env url (.map body)
  | m => logError ("Unsupported HTTP method: " ++ m)

/-- The apply loop of `update_repo_settings`: one write per batch; dry-run
logs instead; a method other than PATCH/PUT/POST is logged via `error!`
and the loop continues. -/
def applyPending (env : GhEnv) (repoName : String) (dryRun : Bool) :
    List PendingEntry → OpOut Unit
  | [] => pure ()
  | p :: rest =>
    if p.body.isEmpty then applyPending env repoName dryRun rest
    else if dryRun then do
      logInfo ("[Dry Run] Would " ++ p.method ++ " " ++ p.url ++ " with body")
      applyPending env repoName dryRun rest
    else do
      dispatchWrite env p.url p.body p.method
      logInfo ("Applied relevant settings changes for repo " ++ repoName ++
        " via " ++ p.url)
      applyPending env repoName dryRun rest

/-- `update_repo_settings`: fetch observed settings, batch the differing
mapped keys, apply the batches, then manage the webhook when one is
configured.  `mapping` is the injected `get_github_api_mapping()` table. -/
def update_repo_settings (env : GhEnv)
    (mapping : String → Option ApiFieldMapping) (org : String) (repo : Repo)
    (dryRun : Bool) : OpOut Unit := do
  let current ← get_repo_settings env org repo.name
  applyPending env repo.name dryRun
    (computePending mapping org repo.name current repo.settings [])
  match repo.webhook with
  | some webhook => manage_webhooks env org repo.name webhook dryRun
  | none => pure ()

/-- The member loop of the team-creation branch of `create_team`: each PUT
propagates its failure (`?`), aborting the remaining members. -/
def addMembersStrict (env : GhEnv) (org teamName : String) :
    List String → OpOut Unit
  | [] => pure ()
  | member :: rest => do
    send_put env (teamMembershipUrl org teamName member) none
    logInfo ("Added " ++ member ++ " to team " ++ teamName)
    addMembersStrict env org teamName rest

/-- The member loop of the team-exists branch of `create_team`: each PUT
failure is logged via `error!` and the loop continues. -/
def addMembersTolerant (env : GhEnv) (org teamName : String) :
    List String → OpOut Unit
  | [] => pure ()
  | member :: rest => do
    let r ← attempt (send_put env (teamMembershipUrl org teamName member) none)
    (match r with
     | .ok _ => logInfo ("Added or confirmed " ++ member ++ " in team " ++ teamName)
     | .error e => logError ("Failed to add " ++ member ++ " to team " ++
        teamName ++ ": " ++ errText e))
    addMembersTolerant env org teamName rest

/-- `create_team`: fetch the team; dry-run only logs; if absent, POST the
team then PUT each member with failures propagating; if present, PUT each
member with failures logged and tolerated. -/
def create_team (env : GhEnv) (org : String) (team : Team) (dryRun : Bool) :
    OpOut Unit := do
  let existing ← get_team env org team.name
  if dryRun then
    match existing with
    | none => do
      logInfo ("[Dry Run] Would create team: " ++ team.name)
      logInfo ("[Dry Run] Would add members to " ++ team.name)
    | some _ => logInfo ("[Dry Run] Would ensure members in " ++ team.name)
  else
    match existing with
    | none => do
      logInfo ("Creating team: " ++ team.name)
      send_post env (teamsUrl org)
        (.map [("name", .str team.name), ("privacy", .str "closed")])
      addMembersStrict env org team.name team.members
    | some _ => do
      logInfo ("Team " ++ team.name ++ " already exists, updating members")
      addMembersTolerant env org team.name team.members

/-- `add_user_to_org`: dry-run reads the current role and logs the would-be
action; apply mode PUTs the desired role unconditionally. -/
def add_user_to_org (env : GhEnv) (org : String) (user : User)
    (dryRun : Bool) : OpOut Unit :=
  if dryRun then do
    let currentRole ← get_user_membership env org user.login
    match currentRole with
    | some role =>
      if role ≠ user.role then
        logInfo ("[Dry Run] Would update " ++ user.login ++ " role: " ++
          role ++ " -> " ++ user.role)
      else pure ()
    | none =>
      logInfo ("[Dry Run] Would add " ++ user.login ++ " with role " ++ user.role)
  else do
    logInfo ("Adding " ++ user.login ++ " to org with role " ++ user.role)
    send_put env (membershipUrl org user.login)
      (some (.map [("role", .str user.role)]))

/-- `assign_team_to_repo`: dry-run reads the current permission and logs
the would-be action; apply mode PUTs the desired permission. -/
def assign_team_to_repo (env : GhEnv) (org : String) (assignment : Assignment)
    (dryRun : Bool) : OpOut Unit :=
  if dryRun then do
    let currentPerm ← get_team_repo_permission env org assignment.team assignment.repo
    match currentPerm with
    | some perm =>
      if perm ≠ assignment.permission then
        logInfo ("[Dry Run] Would update " ++ org ++ "/" ++ assignment.repo ++
          " permission for team " ++ assignment.team ++ ": " ++ perm ++
          " -> " ++ assignment.permission)
      else pure ()
    | none =>
      logInfo ("[Dry Run] Would assign team " ++ assignment.team ++ " to " ++
        org ++ "/" ++ assignment.repo ++ " with permission " ++
        assignment.permission)
  else do
    logInfo ("Assigning team " ++ assignment.team ++ " to repo " ++
      assignment.repo ++ " with permission " ++ assignment.permission)
    send_put env (teamRepoUrl org assignment.team assignment.repo)
      (some (.map [("permission", .str assignment.permission)]))

/-- The default-webhook back-fill step of `sync` (before any network call):
with a default, repos without a webhook inherit it; without a default,
every repo must carry an explicit webhook or `sync` fails up front. -/
def backfillWebhooks (config : Config) : Except AppErr Config :=
  match config.default_webhook with
  | some dw =>
    .ok ⟨config.org,
      config.repos.map (fun r =>
        if r.webhook.isNone then
          ⟨r.name, r.settings, r.visibility, some dw, r.branch_protections, r.extra⟩
        else r),
      config.teams, config.users, config.assignments, config.default_webhook,
      config.default_branch_protections, config.extra⟩
  | none =>
    if config.repos.any (fun r => r.webhook.isNone) then
      .error (.gitHubApi
        "Sync requires either a default_webhook or an explicit webhook definition for every repo in the config.")
    else .ok config

/-- The repo loop of `sync`: empty-name validation, then
`update_repo_settings` per repo, failures propagating. -/
def syncRepos (env : GhEnv) (mapping : String → Option ApiFieldMapping)
    (org : String) (dryRun : Bool) : List Repo → OpOut Unit
  | [] => pure ()
  | repo :: rest => do
    logInfo ("Processing repo: " ++ org ++ "/" ++ repo.name)
    if trimEmpty repo.name then
      opFailLog (.gitHubApi "Invalid empty repo name found in config.")
        "Found repo with empty name in config file."
    else do
      update_repo_settings env mapping org repo dryRun
      syncRepos env mapping org dryRun rest

/-- The team loop of `sync`. -/
def syncTeams (env : GhEnv) (org : String) (dryRun : Bool) :
    List Team → OpOut Unit
  | [] => pure ()
  | team :: rest => do
    logInfo ("Processing team: " ++ team.name)
    create_team env org team dryRun
    syncTeams env org dryRun rest

/-- The user loop of `sync`. -/
def syncUsers (env : GhEnv) (org : String) (dryRun : Bool) :
    List User → OpOut Unit
  | [] => pure ()
  | user :: rest => do
    logInfo ("Processing user: " ++ user.login)
    add_user_to_org env org user dryRun
    syncUsers env org dryRun rest

/-- The assignment loop of `sync`. -/
def syncAssignments (env : GhEnv) (org : String) (dryRun : Bool) :
    List Assignment → OpOut Unit
  | [] => pure ()
  | assignment :: rest => do
    logInfo ("Processing assignment: Team " ++ assignment.team ++
      " on Repo " ++ assignment.repo)
    assign_team_to_repo env org assignment dryRun
    syncAssignments env org dryRun rest

/-- `sync`: the parsed configuration (file loading and YAML parsing are
external), default-webhook back-fill or validation, then the four resource
loops in order.  `self.org` is set from `config.org`. -/
def sync (env : GhEnv) (mapping : String → Option ApiFieldMapping)
    (config : Config) (dryRun : Bool) : OpOut Unit := do
  (if dryRun then
    logInfo "Running in dry-run mode; validating changes without applying."
  else logInfo "Running in apply mode; changes will be applied.")
  match backfillWebhooks config with
  | .error e => opFail e
  | .ok config2 => do
    syncRepos env mapping config2.org dryRun config2.repos
    syncTeams env config2.org dryRun config2.teams
    syncUsers env config2.org dryRun config2.users
    syncAssignments env config2.org dryRun config2.assignments

/-! ### The diff renderer (`GitHubClient::diff`, steps 3-8)

`diff` loads the local config, snapshots the filtered GitHub state, applies
the default-webhook back-fill and the matching-default normalization pass,
sorts every collection, serializes both trees to YAML and reports
`has_differences` iff the textual line diff produced any hunk.
`serde_yaml::to_string` is injective on these trees and renders mapping
entries in stored order, and `TextDiff` produces a hunk exactly when the two
texts differ; the textual comparison is therefore modelled as equality of the
two normalized configuration values, including the stored order of their
settings entries. -/

/-- Lexicographic strict order on character lists by code point (Rust
compares strings by UTF-8 bytes, which orders exactly like code points). -/
def charListLt : List Char → List Char → Bool
  | _, [] => false
  | [], _ :: _ => true
  | c :: cs, d :: ds =>
    if c.toNat < d.toNat then true
    else if d.toNat < c.toNat then false
    else charListLt cs ds

/-- Strict lexicographic order on strings (`str::cmp` is `Less`). -/
def strLt (a b : String) : Bool := charListLt a.data b.data

/-- Insert into a sorted list, after all elements not strictly greater
(the insertion step of a stable sort). -/
def insSorted {α : Type} (lt : α → α → Bool) (x : α) : List α → List α
  | [] => [x]
  | y :: ys => if lt x y then x :: y :: ys else y :: insSorted lt x ys

/-- Stable sort by a strict comparison (Rust `sort_by` is stable). -/
def sortByStable {α : Type} (lt : α → α → Bool) (l : List α) : List α :=
  l.foldl (fun acc x => insSorted lt x acc) []

/-- `Vec::sort` on strings. -/
def sortStrings (l : List String) : List String :=
  sortByStable strLt l

/-- Sort the events of a webhook (`wh.events.sort()`). -/
def sortEvents (wh : WebhookConfig) : WebhookConfig :=
  ⟨wh.url, wh.content_type, sortStrings wh.events⟩

/-- Replace the webhook of a repo. -/
def setWebhook (r : Repo) (w : Option WebhookConfig) : Repo :=
  ⟨r.name, r.settings, r.visibility, w, r.branch_protections, r.extra⟩

/-- Step 4 of `diff` for one local repo: back-fill the default webhook when
none is set, then sort the (applied or explicit) webhook events. -/
def applyLocalDefaultWebhook (dw : WebhookConfig) (r : Repo) : Repo :=
  let r1 := if r.webhook.isNone then setWebhook r (some dw) else r
  match r1.webhook with
  | some wh => setWebhook r1 (some (sortEvents wh))
  | none => r1

/-- Clear the webhook of the first repo with the given name
(`iter_mut().find(..)` followed by the in-place update). -/
def clearWebhookFirst : List Repo → String → List Repo
  | [], _ => []
  | g :: gs, nm =>
    if g.name == nm then setWebhook g none :: gs
    else g :: clearWebhookFirst gs nm

/-- Step 5 of `diff`: for every local repo that did not originally carry an
explicit webhook, when the matching GitHub repo holds exactly the sorted
default webhook, remove the webhook from both sides. -/
def normalizeWebhookPass (sortedDefault : WebhookConfig)
    (origExplicit : List String) :
    List Repo → List Repo → List Repo × List Repo
  | [], ghRepos => ([], ghRepos)
  | r :: rest, ghRepos =>
    if origExplicit.contains r.name then
      let res := normalizeWebhookPass sortedDefault origExplicit rest ghRepos
      (r :: res.1, res.2)
    else
      match ghRepos.find? (fun g => g.name == r.name) with
      | some g =>
        if g.webhook == some sortedDefault then
          let res := normalizeWebhookPass sortedDefault origExplicit rest
            (clearWebhookFirst ghRepos r.name)
          (setWebhook r none :: res.1, res.2)
        else
          let res := normalizeWebhookPass sortedDefault origExplicit rest ghRepos
          (r :: res.1, res.2)
      | none =>
        let res := normalizeWebhookPass sortedDefault origExplicit rest ghRepos
        (r :: res.1, res.2)

/-- Step 7 sorting: repos by name. -/
def sortRepos (l : List Repo) : List Repo :=
  sortByStable (fun a b => strLt a.name b.name) l

/-- Step 7 sorting: teams by name, members sorted inside each team. -/
def sortTeams (l : List Team) : List Team :=
  (sortByStable (fun a b => strLt a.name b.name) l).map
    (fun t => ⟨t.name, sortStrings t.members⟩)

/-- Step 7 sorting: users by login. -/
def sortUsers (l : List User) : List User :=
  sortByStable (fun a b => strLt a.login b.login) l

/-- Step 7 sorting: assignments by team then repo. -/
def sortAssignments (l : List Assignment) : List Assignment :=
  sortByStable (fun a b =>
    strLt a.team b.team || (a.team == b.team && strLt a.repo b.repo)) l

/-- Steps 3-7 of `diff`: produce the two normalized configurations that are
serialized and text-diffed.  The GitHub snapshot (`github`) is the filtered
state produced by `generate_filtered_config_from_org` (its webhook events
already sorted); `local` is the loaded local config. -/
def diffNormalize (localConfig githubConfig : Config) : Config × Config :=
  let origExplicit := localConfig.repos.filterMap
    (fun r => if r.webhook.isSome then some r.name else none)
  let sortedDefault := localConfig.default_webhook.map sortEvents
  let localRepos1 :=
    match localConfig.default_webhook with
    | some dw => localConfig.repos.map (applyLocalDefaultWebhook dw)
    | none => localConfig.repos
  let pair :=
    match sortedDefault with
    | some dws => normalizeWebhookPass dws origExplicit localRepos1
        githubConfig.repos
    | none => (localRepos1, githubConfig.repos)
  (⟨localConfig.org, sortRepos pair.1, sortTeams localConfig.teams,
      sortUsers localConfig.users, sortAssignments localConfig.assignments,
      none, localConfig.default_branch_protections, localConfig.extra⟩,
   ⟨githubConfig.org, sortRepos pair.2, sortTeams githubConfig.teams,
      sortUsers githubConfig.users, sortAssignments githubConfig.assignments,
      githubConfig.default_webhook, githubConfig.default_branch_protections,
      githubConfig.extra⟩)

/-- Step 8 of `diff`: `has_differences` — a hunk exists iff the serialized
texts differ, i.e. iff the two normalized configuration values differ
(including the stored order of settings-map entries, which
`serde_yaml::to_string` renders as-is). -/
def diff_has_differences (localConfig githubConfig : Config) : Bool :=
  let n := diffNormalize localConfig githubConfig
  decide (n.1 ≠ n.2)

/-- Canonical form of a settings map: entries stably sorted by key.  Two
maps are structurally and value-equal iff their canonical forms agree. -/
def canonEntries (l : List (String × Yaml)) : List (String × Yaml) :=
  sortByStable (fun a b => strLt a.1 b.1) l

/-- Structural-and-value equality of settings maps: equality as maps,
ignoring entry order. -/
def settingsEquiv (a b : List (String × Yaml)) : Bool :=
  decide (canonEntries a = canonEntries b)

/-- Structural-and-value equality of repos: settings compared as maps. -/
def repoEquiv (a b : Repo) : Bool :=
  decide (a.name = b.name) && settingsEquiv a.settings b.settings &&
  decide (a.visibility = b.visibility) && decide (a.webhook = b.webhook) &&
  decide (a.branch_protections = b.branch_protections) &&
  settingsEquiv a.extra b.extra

/-- Pointwise structural-and-value equality of repo lists. -/
def reposEquiv : List Repo → List Repo → Bool
  | [], [] => true
  | a :: la, b :: lb => repoEquiv a b && reposEquiv la lb
  | _, _ => false

/-- Structural-and-value equality of configuration trees: equality
everywhere, with open maps (repo settings, extra bags) compared as maps
rather than as entry lists. -/
def configEquiv (a b : Config) : Bool :=
  decide (a.org = b.org) && reposEquiv a.repos b.repos &&
  decide (a.teams = b.teams) && decide (a.users = b.users) &&
  decide (a.assignments = b.assignments) &&
  decide (a.default_webhook = b.default_webhook) &&
  decide (a.default_branch_protections = b.default_branch_protections) &&
  settingsEquiv a.extra b.extra

instance {ε α : Type} [DecidableEq ε] [DecidableEq α] :
    DecidableEq (Except ε α) := fun a b =>
  match a, b with
  | .ok x, .ok y =>
    if h : x = y then .isTrue (by rw [h]) else .isFalse (fun hh => h (by cases hh; rfl))
  | .error x, .error y =>
    if h : x = y then .isTrue (by rw [h]) else .isFalse (fun hh => h (by cases hh; rfl))
  | .ok _, .error _ => .isFalse (fun h => by cases h)
  | .error _, .ok _ => .isFalse (fun h => by cases h)

/-! ### Concrete oracles and configurations used as test inputs -/

/-- A write oracle accepting every mutating request. -/
def writeAllOk : String → String → Option Yaml → Except AppErr Unit :=
  fun _ _ _ => .ok ()

/-- An oracle whose every GET fails with a transport error. -/
def envGetFail : GhEnv := ⟨fun _ => .error (.http "boom"), writeAllOk⟩

/-- Team `infra` does not exist (404), and the membership PUT for `bob`
fails; every other write succeeds. -/
def envTeamAbsent : GhEnv :=
  ⟨fun url =>
    if url = teamUrl "acme" "infra" then .error (.gitHubApi "404 Not Found")
    else .error (.http "unexpected"),
   fun method url _ =>
    if method = "PUT" ∧ url = teamMembershipUrl "acme" "infra" "bob" then
      .error (.gitHubApi "boom")
    else .ok ()⟩

/-- Team `infra` exists, and the membership PUT for `bob` fails. -/
def envTeamExists : GhEnv :=
  ⟨fun url =>
    if url = teamUrl "acme" "infra" then .ok (.teamJson "infra")
    else .error (.http "unexpected"),
   fun _ url _ =>
    if url = teamMembershipUrl "acme" "infra" "bob" then
      .error (.gitHubApi "boom")
    else .ok ()⟩

/-- An existing hook on `acme/r1` with events `[push, pull_request]` in
that order. -/
def hookPushPull : WebhookResponse :=
  ⟨some 7, "https://api.github.com/hook/7",
    ⟨"https://h.example.com/hook", "json"⟩, ["push", "pull_request"]⟩

/-- Repo `acme/r1` carries exactly `hookPushPull`. -/
def envOneHook : GhEnv :=
  ⟨fun url =>
    if url = hooksUrl "acme" "r1" then .ok (.hooksJson [hookPushPull])
    else .error (.http "unexpected"),
   writeAllOk⟩

/-- Repo `acme/r1` answers its settings GET with an empty object. -/
def envRepoNoSettings : GhEnv :=
  ⟨fun url =>
    if url = repoUrl "acme" "r1" then .ok (.repoJson [])
    else .error (.http "unexpected"),
   writeAllOk⟩

/-- The team-repo permission GET for `t1` on `acme/r1` succeeds with an
empty body. -/
def envPermEmptyBody : GhEnv :=
  ⟨fun url =>
    if url = teamRepoUrl "acme" "t1" "r1" then .ok .emptyBody
    else .error (.http "unexpected"),
   writeAllOk⟩

/-- An empty mapping table. -/
def mappingNone : String → Option ApiFieldMapping := fun _ => none

/-- A one-entry mapping table whose HTTP method is unsupported. -/
def deleteMapping : String → Option ApiFieldMapping := fun k =>
  if k = "weird_setting" then
    some ⟨"repo", "weird_setting", "/repos/{owner}/{repo}/weird", "DELETE",
      "weird_setting"⟩
  else none

/-- The repo-settings fragment of the generated mapping table: the three
merge-strategy keys all PATCH the repo endpoint. -/
def amcMapping : String → Option ApiFieldMapping := fun k =>
  if k = "allow_merge_commit" then
    some ⟨"repo", "allow_merge_commit", "/repos/{owner}/{repo}", "PATCH",
      "allow_merge_commit"⟩
  else if k = "allow_squash_merge" then
    some ⟨"repo", "allow_squash_merge", "/repos/{owner}/{repo}", "PATCH",
      "allow_squash_merge"⟩
  else none

/-- Local config for the diff counterexample: one repo with settings
entries stored in the order `a, b`. -/
def diffLocalConfig : Config :=
  ⟨"acme", [⟨"r1", [("a", .int 1), ("b", .int 2)], none, none, [], []⟩],
    [], [], [], none, [], []⟩

/-- GitHub snapshot for the diff counterexample: the same repo with the
same settings map whose entries iterate in the order `b, a`. -/
def diffGithubConfig : Config :=
  ⟨"acme", [⟨"r1", [("b", .int 2), ("a", .int 1)], none, none, [], []⟩],
    [], [], [], none, [], []⟩

/-! ### Theorems -/

theorem bind_eq {α β : Type} (x : OpOut α) (f : α → OpOut β) :
    x >>= f = OpOut.bind x f := rfl

theorem pure_eq {α : Type} (a : α) :
    (pure a : OpOut α) = ⟨.ok a, Trace.nil⟩ := rfl

/-- A trace that contains only GET requests (no mutating request). -/
def OnlyGets (t : Trace) : Prop := ∀ r ∈ t.requests, r.method = "GET"

theorem onlyGets_nil : OnlyGets Trace.nil := by
  intro r hr; cases hr

theorem onlyGets_append {a b : Trace} (ha : OnlyGets a) (hb : OnlyGets b) :
    OnlyGets (a.append b) := by
  intro r hr
  rcases List.mem_append.mp hr with h | h
  · exact ha r h
  · exact hb r h

theorem onlyGets_bind {α β : Type} {x : OpOut α} {f : α → OpOut β}
    (hx : OnlyGets x.trace) (hf : ∀ a, OnlyGets (f a).trace) :
    OnlyGets (OpOut.bind x f).trace := by
  unfold OpOut.bind
  rcases hr : x.res with e | a
  · simpa using hx
  · exact onlyGets_append hx (hf a)

theorem onlyGets_pure {α : Type} (a : α) : OnlyGets (pure a : OpOut α).trace :=
  onlyGets_nil

theorem onlyGets_logInfo (msg : String) : OnlyGets (logInfo msg).trace :=
  onlyGets_nil

theorem onlyGets_logError (msg : String) : OnlyGets (logError msg).trace :=
  onlyGets_nil

theorem onlyGets_opFail {α : Type} (e : AppErr) :
    OnlyGets (opFail e : OpOut α).trace := onlyGets_nil

theorem onlyGets_opFailLog {α : Type} (e : AppErr) (msg : String) :
    OnlyGets (opFailLog e msg : OpOut α).trace := onlyGets_nil

theorem onlyGets_attempt {α : Type} {x : OpOut α} (hx : OnlyGets x.trace) :
    OnlyGets (attempt x).trace := hx

theorem onlyGets_httpGet (env : GhEnv) (url : String) :
    OnlyGets (httpGet env url).trace := by
  unfold httpGet
  split
  · exact onlyGets_nil
  · rcases env.rawGet url with e | b <;>
      · intro r hr
        simp only [List.mem_singleton] at hr
        subst hr; rfl

theorem onlyGets_of_noreq {t : Trace} (h : t.requests = []) : OnlyGets t := by
  intro r hr; rw [h] at hr; cases hr

theorem bind_res_error {α β : Type} {x : OpOut α} {f : α → OpOut β}
    {e : AppErr} (h : x.res = .error e) : (OpOut.bind x f).res = .error e := by
  unfold OpOut.bind; rw [h]

theorem onlyGets_get_repo_settings (env : GhEnv) (org repoName : String) :
    OnlyGets (get_repo_settings env org repoName).trace := by
  unfold get_repo_settings
  rw [bind_eq]
  refine onlyGets_bind (onlyGets_httpGet _ _) ?_
  intro a
  rcases a <;> exact onlyGets_of_noreq rfl

theorem onlyGets_get_team (env : GhEnv) (org teamName : String) :
    OnlyGets (get_team env org teamName).trace := by
  unfold get_team
  rw [bind_eq]
  refine onlyGets_bind (onlyGets_attempt (onlyGets_httpGet _ _)) ?_
  intro a
  apply onlyGets_of_noreq
  split <;> first | rfl | (split <;> rfl)

theorem onlyGets_get_user_membership (env : GhEnv) (org login : String) :
    OnlyGets (get_user_membership env org login).trace := by
  unfold get_user_membership
  rw [bind_eq]
  refine onlyGets_bind (onlyGets_attempt (onlyGets_httpGet _ _)) ?_
  intro a
  apply onlyGets_of_noreq
  split <;> first | rfl | (split <;> rfl)

theorem onlyGets_get_webhooks (env : GhEnv) (org repoName : String) :
    OnlyGets (get_webhooks env org repoName).trace := by
  unfold get_webhooks
  rw [bind_eq]
  refine onlyGets_bind (onlyGets_httpGet _ _) ?_
  intro a
  rcases a <;> exact onlyGets_of_noreq rfl

theorem onlyGets_get_team_repo_permission (env : GhEnv)
    (org teamName repoName : String) :
    OnlyGets (get_team_repo_permission env org teamName repoName).trace := by
  unfold get_team_repo_permission
  rw [bind_eq]
  refine onlyGets_bind (onlyGets_attempt (onlyGets_httpGet _ _)) ?_
  intro a
  apply onlyGets_of_noreq
  split <;> first | rfl | (split <;> rfl)

theorem onlyGets_manage_webhooks_dry (env : GhEnv) (org repoName : String)
    (webhook : WebhookConfig) :
    OnlyGets (manage_webhooks env org repoName webhook true).trace := by
  unfold manage_webhooks
  rw [bind_eq]
  refine onlyGets_bind (onlyGets_get_webhooks _ _ _) ?_
  intro hooks
  simp only [if_true]
  apply onlyGets_of_noreq
  split <;> first | rfl | (split <;> rfl)

theorem onlyGets_applyPending_dry (env : GhEnv) (repoName : String) :
    ∀ pends, OnlyGets (applyPending env repoName true pends).trace := by
  intro pends
  induction pends with
  | nil => exact onlyGets_of_noreq rfl
  | cons p rest ih =>
    unfold applyPending
    split
    · exact ih
    · simp only [if_true]
      rw [bind_eq]
      exact onlyGets_bind (onlyGets_logInfo _) (fun _ => ih)

theorem onlyGets_update_repo_settings_dry (env : GhEnv)
    (mapping : String → Option ApiFieldMapping) (org : String) (repo : Repo) :
    OnlyGets (update_repo_settings env mapping org repo true).trace := by
  unfold update_repo_settings
  rw [bind_eq]
  refine onlyGets_bind (onlyGets_get_repo_settings _ _ _) ?_
  intro current
  rw [bind_eq]
  refine onlyGets_bind (onlyGets_applyPending_dry _ _ _) ?_
  intro _
  rcases repo.webhook with _ | wh
  · exact onlyGets_pure _
  · exact onlyGets_manage_webhooks_dry _ _ _ _

theorem onlyGets_create_team_dry (env : GhEnv) (org : String) (team : Team) :
    OnlyGets (create_team env org team true).trace := by
  unfold create_team
  rw [bind_eq]
  refine onlyGets_bind (onlyGets_get_team _ _ _) ?_
  intro existing
  simp only [if_true]
  rcases existing with _ | t
  · rw [bind_eq]
    exact onlyGets_bind (onlyGets_logInfo _) (fun _ => onlyGets_logInfo _)
  · exact onlyGets_logInfo _

theorem onlyGets_add_user_to_org_dry (env : GhEnv) (org : String) (user : User) :
    OnlyGets (add_user_to_org env org user true).trace := by
  unfold add_user_to_org
  simp only [if_true]
  rw [bind_eq]
  refine onlyGets_bind (onlyGets_get_user_membership _ _ _) ?_
  intro role
  apply onlyGets_of_noreq
  split <;> first | rfl | (split <;> rfl)

theorem onlyGets_assign_team_to_repo_dry (env : GhEnv) (org : String)
    (assignment : Assignment) :
    OnlyGets (assign_team_to_repo env org assignment true).trace := by
  unfold assign_team_to_repo
  simp only [if_true]
  rw [bind_eq]
  refine onlyGets_bind (onlyGets_get_team_repo_permission _ _ _ _) ?_
  intro perm
  apply onlyGets_of_noreq
  split <;> first | rfl | (split <;> rfl)

theorem onlyGets_syncRepos_dry (env : GhEnv)
    (mapping : String → Option ApiFieldMapping) (org : String) :
    ∀ repos, OnlyGets (syncRepos env mapping org true repos).trace := by
  intro repos
  induction repos with
  | nil => exact onlyGets_of_noreq rfl
  | cons repo rest ih =>
    unfold syncRepos
    rw [bind_eq]
    refine onlyGets_bind (onlyGets_logInfo _) ?_
    intro _
    split
    · exact onlyGets_of_noreq rfl
    · rw [bind_eq]
      exact onlyGets_bind (onlyGets_update_repo_settings_dry _ _ _ _) (fun _ => ih)

theorem onlyGets_syncTeams_dry (env : GhEnv) (org : String) :
    ∀ teams, OnlyGets (syncTeams env org true teams).trace := by
  intro teams
  induction teams with
  | nil => exact onlyGets_of_noreq rfl
  | cons team rest ih =>
    unfold syncTeams
    rw [bind_eq]
    refine onlyGets_bind (onlyGets_logInfo _) ?_
    intro _
    rw [bind_eq]
    exact onlyGets_bind (onlyGets_create_team_dry _ _ _) (fun _ => ih)

theorem onlyGets_syncUsers_dry (env : GhEnv) (org : String) :
    ∀ users, OnlyGets (syncUsers env org true users).trace := by
  intro users
  induction users with
  | nil => exact onlyGets_of_noreq rfl
  | cons user rest ih =>
    unfold syncUsers
    rw [bind_eq]
    refine onlyGets_bind (onlyGets_logInfo _) ?_
    intro _
    rw [bind_eq]
    exact onlyGets_bind (onlyGets_add_user_to_org_dry _ _ _) (fun _ => ih)

theorem onlyGets_syncAssignments_dry (env : GhEnv) (org : String) :
    ∀ l, OnlyGets (syncAssignments env org true l).trace := by
  intro l
  induction l with
  | nil => exact onlyGets_of_noreq rfl
  | cons assignment rest ih =>
    unfold syncAssignments
    rw [bind_eq]
    refine onlyGets_bind (onlyGets_logInfo _) ?_
    intro _
    rw [bind_eq]
    exact onlyGets_bind (onlyGets_assign_team_to_repo_dry _ _ _) (fun _ => ih)

theorem onlyGets_sync_dry (env : GhEnv)
    (mapping : String → Option ApiFieldMapping) (config : Config) :
    OnlyGets (sync env mapping config true).trace := by
  unfold sync
  simp only [if_true]
  rw [bind_eq]
  refine onlyGets_bind (onlyGets_logInfo _) ?_
  intro _
  split
  · exact onlyGets_opFail _
  · rw [bind_eq]
    refine onlyGets_bind (onlyGets_syncRepos_dry _ _ _ _) ?_
    intro _
    rw [bind_eq]
    refine onlyGets_bind (onlyGets_syncTeams_dry _ _ _) ?_
    intro _
    rw [bind_eq]
    exact onlyGets_bind (onlyGets_syncUsers_dry _ _ _)
      (fun _ => onlyGets_syncAssignments_dry _ _ _)

theorem findIdxByName_getD (l : List Yaml) (nm : String) :
    (findIdxByName l nm).map (fun i => l.getD i .null) =
      l.find? (fun m => elemName m == some nm) := by
  induction l with
  | nil => rfl
  | cons m rest ih =>
    by_cases h : elemName m == some nm
    · simp [findIdxByName, h, List.find?]
    · simp only [findIdxByName, h, if_neg, Bool.false_eq_true, not_false_iff,
        ite_false, List.find?]
      rw [Option.map_map]
      rw [← ih]
      rcases findIdxByName rest nm with _ | i <;> simp

theorem mergeSeqGo_fst (mainSeq : List Yaml) :
    ∀ ds used, (mergeSeqGo mainSeq ds used).1 = ds.map (specStep mainSeq) := by
  intro ds
  induction ds with
  | nil => intro used; rfl
  | cons d rest ih =>
    intro used
    rcases he : elemName d with _ | nm
    · simp [mergeSeqGo, he, specStep, ih]
    · rcases hf : findIdxByName mainSeq nm with _ | i
      · have hfind := findIdxByName_getD mainSeq nm
        rw [hf] at hfind
        simp [mergeSeqGo, he, hf, specStep, ← hfind, ih]
      · have hfind := findIdxByName_getD mainSeq nm
        rw [hf] at hfind
        simp [mergeSeqGo, he, hf, specStep, ← hfind, ih]

theorem matchIdx_eq_of_name (mainSeq : List Yaml) (d : Yaml) (nm : String)
    (he : elemName d = some nm) :
    matchIdx mainSeq d = findIdxByName mainSeq nm := by
  unfold matchIdx; rw [he]

theorem matchIdx_eq_none (mainSeq : List Yaml) (d : Yaml)
    (he : elemName d = none) : matchIdx mainSeq d = none := by
  unfold matchIdx; rw [he]

theorem mergeSeqGo_snd_mem (mainSeq : List Yaml) :
    ∀ ds used j, j ∈ (mergeSeqGo mainSeq ds used).2 ↔
      (∃ d ∈ ds, matchIdx mainSeq d = some j) ∨ j ∈ used := by
  intro ds
  induction ds with
  | nil => intro used j; simp [mergeSeqGo]
  | cons d rest ih =>
    intro used j
    rcases he : elemName d with _ | nm
    · simp only [mergeSeqGo, he, ih, List.mem_cons]
      constructor
      · rintro (⟨d', hd', hmi⟩ | hu)
        · exact Or.inl ⟨d', Or.inr hd', hmi⟩
        · exact Or.inr hu
      · rintro (⟨d', hd' | hd', hmi⟩ | hu)
        · rw [hd', matchIdx_eq_none mainSeq d he] at hmi; cases hmi
        · exact Or.inl ⟨d', hd', hmi⟩
        · exact Or.inr hu
    · rcases hf : findIdxByName mainSeq nm with _ | i
      · simp only [mergeSeqGo, he, hf, ih, List.mem_cons]
        constructor
        · rintro (⟨d', hd', hmi⟩ | hu)
          · exact Or.inl ⟨d', Or.inr hd', hmi⟩
          · exact Or.inr hu
        · rintro (⟨d', hd' | hd', hmi⟩ | hu)
          · rw [hd', matchIdx_eq_of_name mainSeq d nm he, hf] at hmi
            cases hmi
          · exact Or.inl ⟨d', hd', hmi⟩
          · exact Or.inr hu
      · simp only [mergeSeqGo, he, hf, ih, List.mem_cons]
        constructor
        · rintro (⟨d', hd', hmi⟩ | hj | hu)
          · exact Or.inl ⟨d', Or.inr hd', hmi⟩
          · subst hj
            exact Or.inl ⟨d, Or.inl rfl, by
              rw [matchIdx_eq_of_name mainSeq d nm he, hf]⟩
          · exact Or.inr hu
        · rintro (⟨d', hd' | hd', hmi⟩ | hu)
          · rw [hd', matchIdx_eq_of_name mainSeq d nm he, hf] at hmi
            exact Or.inr (Or.inl (Option.some_injective _ hmi).symm)
          · exact Or.inl ⟨d', hd', hmi⟩
          · exact Or.inr (Or.inr hu)

theorem findIdxByName_some (l : List Yaml) (nm : String) :
    ∀ i, findIdxByName l nm = some i →
      i < l.length ∧ elemName (l.getD i .null) = some nm := by
  induction l with
  | nil => intro i h; cases h
  | cons m rest ih =>
    intro i h
    by_cases hm : elemName m == some nm
    · simp only [findIdxByName, hm, ite_true] at h
      cases h
      exact ⟨Nat.succ_pos _, by simpa using hm⟩
    · simp only [findIdxByName, hm, Bool.false_eq_true, not_false_iff,
        ite_false, Option.map_eq_some'] at h
      obtain ⟨j, hj, rfl⟩ := h
      obtain ⟨hlt, hnm⟩ := ih j hj
      exact ⟨by simpa using Nat.succ_lt_succ hlt, by simpa using hnm⟩

theorem getD_name_mem (l : List Yaml) (nm : String) :
    ∀ i, i < l.length → elemName (l.getD i .null) = some nm →
      nm ∈ l.filterMap elemName := by
  induction l with
  | nil => intro i h; cases h
  | cons m rest ih =>
    intro i hlt hnm
    match i with
    | 0 => simp only [List.getD_cons_zero] at hnm; simp [hnm]
    | j + 1 =>
      have := ih j (by simpa using Nat.lt_of_succ_lt_succ hlt)
        (by simpa using hnm)
      rcases hm : elemName m with _ | a <;> simp [hm, this]

theorem findIdxByName_unique (l : List Yaml) (nm : String)
    (hnd : (l.filterMap elemName).Nodup) :
    ∀ i, i < l.length → elemName (l.getD i .null) = some nm →
      findIdxByName l nm = some i := by
  induction l with
  | nil => intro i h; cases h
  | cons m rest ih =>
    intro i hlt hnm
    match i with
    | 0 =>
      simp only [List.getD_cons_zero] at hnm
      simp [findIdxByName, hnm]
    | j + 1 =>
      have hj : j < rest.length := by simpa using Nat.lt_of_succ_lt_succ hlt
      have hrest : elemName (rest.getD j .null) = some nm := by simpa using hnm
      have hmem : nm ∈ rest.filterMap elemName := getD_name_mem rest nm j hj hrest
      have hm : (elemName m == some nm) = false := by
        rcases he : elemName m with _ | a
        · rfl
        · have : a ∉ rest.filterMap elemName := by
            simp only [List.filterMap_cons, he] at hnd
            exact (List.nodup_cons.mp hnd).1
          have hne : a ≠ nm := fun hh => this (hh ▸ hmem)
          simpa using fun hh => hne (by exact_mod_cast hh)
      have hnd' : (rest.filterMap elemName).Nodup := by
        rcases he2 : elemName m with _ | a
        · simpa only [List.filterMap_cons, he2] using hnd
        · simp only [List.filterMap_cons, he2] at hnd
          exact (List.nodup_cons.mp hnd).2
      simp [findIdxByName, hm, ih hnd' j hj hrest]

theorem dropUsed_eq_filter (used : List Nat) (P : Yaml → Bool) :
    ∀ l n, (∀ i, i < l.length → ((n + i) ∈ used ↔ P (l.getD i .null) = false)) →
      dropUsed used n l = l.filter P := by
  intro l
  induction l with
  | nil => intro n _; rfl
  | cons m rest ih =>
    intro n h
    have h0 := h 0 (Nat.succ_pos _)
    simp only [Nat.add_zero, List.getD_cons_zero] at h0
    have hrec := ih (n + 1) (fun i hi => by
      have := h (i + 1) (by simpa using Nat.succ_lt_succ hi)
      simpa [Nat.add_assoc, Nat.add_comm 1 i] using this)
    by_cases hn : n ∈ used
    · have hp : P m = false := h0.mp hn
      simp [dropUsed, hn, List.filter_cons, hp, hrec]
    · have hp : P m = true := by
        rcases hPm : P m with _ | _
        · exact absurd (h0.mpr hPm) hn
        · rfl
      simp [dropUsed, hn, List.filter_cons, hp, hrec]

/-- The sequence branch of `merge_with_defaults`, characterised
declaratively: processed defaults first (in defaults order), then the
unmatched main elements in their original relative order.  Requires the
named main elements to have pairwise distinct names. -/
theorem merge_seq_structure (m : Yaml) (ms ds : List Yaml)
    (hnd : ((m :: ms).filterMap elemName).Nodup) :
    merge_with_defaults (.seq (m :: ms)) (.seq ds)
      = .seq (ds.map (specStep (m :: ms)) ++
          (m :: ms).filter (keepsAgainst ds)) := by
  have hfst := mergeSeqGo_fst (m :: ms) ds []
  have hfilter : dropUsed (mergeSeqGo (m :: ms) ds []).2 0 (m :: ms)
      = (m :: ms).filter (keepsAgainst ds) := by
    apply dropUsed_eq_filter
    intro i hi
    rw [Nat.zero_add]
    rw [mergeSeqGo_snd_mem (m :: ms) ds [] i]
    simp only [List.not_mem_nil, or_false]
    constructor
    · rintro ⟨d, hd, hmi⟩
      unfold matchIdx at hmi
      rcases he : elemName d with _ | nm
      · rw [he] at hmi; cases hmi
      · rw [he] at hmi
        obtain ⟨_, hname⟩ := findIdxByName_some (m :: ms) nm i hmi
        unfold keepsAgainst
        rw [hname]
        simp only [Bool.not_eq_false', Bool.not_eq_true, Bool.not_not]
        exact List.any_eq_true.mpr ⟨d, hd, by simp [he]⟩
    · intro hk
      unfold keepsAgainst at hk
      rcases he : elemName ((m :: ms).getD i .null) with _ | nm
      · rw [he] at hk; cases hk
      · rw [he] at hk
        simp only [Bool.not_eq_false', List.any_eq_true] at hk
        obtain ⟨d, hd, hdn⟩ := hk
        refine ⟨d, hd, ?_⟩
        unfold matchIdx
        have hdn' : elemName d = some nm := by simpa using hdn
        rw [hdn']
        exact findIdxByName_unique (m :: ms) nm hnd i hi he
  show Yaml.seq ((mergeSeqGo (m :: ms) ds []).1 ++
      dropUsed (mergeSeqGo (m :: ms) ds []).2 0 (m :: ms)) = _
  rw [hfst, hfilter]

theorem mergeMapEntries_disjoint :
    ∀ (es : List (String × Yaml)) (acc : List (String × Yaml)),
      (es.map Prod.fst).Nodup →
      (∀ k ∈ es.map Prod.fst, ∀ p ∈ acc, p.1 ≠ k) →
      mergeMapEntries acc es = acc ++ es := by
  intro es
  induction es with
  | nil => intro acc _ _; simp [mergeMapEntries]
  | cons e rest ih =>
    intro acc hnd hdisj
    obtain ⟨k, v⟩ := e
    have hknotin : ∀ p ∈ acc, p.1 ≠ k := fun p hp =>
      hdisj k (by simp) p hp
    have hfind : acc.findIdx? (fun p => p.1 == k) = none := by
      rw [List.findIdx?_eq_none_iff]
      intro p hp
      simpa using hknotin p hp
    have hany : acc.any (fun p => p.1 == k) = false := by
      simp only [List.any_eq_false]
      intro p hp
      simpa using hknotin p hp
    have hmapcons : (((k, v) :: rest).map Prod.fst) = k :: rest.map Prod.fst := rfl
    rw [hmapcons] at hnd
    have hnd2 := List.nodup_cons.mp hnd
    have hnd' : (rest.map Prod.fst).Nodup := hnd2.2
    have hknotrest : k ∉ rest.map Prod.fst := hnd2.1
    have hdisj' : ∀ k' ∈ rest.map Prod.fst, ∀ p ∈ acc ++ [(k, v)], p.1 ≠ k' := by
      intro k' hk' p hp
      rcases List.mem_append.mp hp with hp | hp
      · exact hdisj k' (by simp [hk']) p hp
      · simp only [List.mem_singleton] at hp
        subst hp
        intro hh
        apply hknotrest
        have hkk : k = k' := hh
        exact hkk ▸ hk'
    show mergeMapEntries acc ((k, v) :: rest) = acc ++ (k, v) :: rest
    unfold mergeMapEntries
    unfold swapRemove
    rw [hfind]
    simp only []
    unfold mapInsert
    rw [hany]
    simp only [Bool.false_eq_true, if_false]
    rw [ih (acc ++ [(k, v)]) hnd' hdisj']
    simp

/-- Claim C6, counterexample: `merge` is not idempotent in its defaults
argument.  With main `⟨members: [bob]⟩` and defaults `⟨members: [alice]⟩`
the first merge yields `⟨members: [alice, bob]⟩`, and re-merging the same
defaults duplicates the unnamed sequence element:
`⟨members: [alice, alice, bob]⟩`. -/
theorem C6_counterexample :
    merge_with_defaults
        (merge_with_defaults (.map [("members", .seq [.str "bob"])])
          (.map [("members", .seq [.str "alice"])]))
        (.map [("members", .seq [.str "alice"])])
      ≠ merge_with_defaults (.map [("members", .seq [.str "bob"])])
          (.map [("members", .seq [.str "alice"])]) := by decide

/-- Claim C6, amended: the two unit laws hold — `merge(main, ⟨⟩) = main`
for every tree, and `merge(⟨⟩, defaults) = defaults` for every mapping
`defaults` with distinct keys — but merging is NOT idempotent in the
defaults argument (see the counterexample: re-merging duplicates unnamed
sequence elements and duplicate-named records). -/
theorem C6_unit_laws :
    (∀ main : Yaml, merge_with_defaults main (.map []) = main) ∧
    (∀ es : List (String × Yaml), (es.map Prod.fst).Nodup →
      merge_with_defaults (.map []) (.map es) = .map es) := by
  constructor
  · intro main
    cases main <;> rfl
  · intro es hnd
    show Yaml.map (mergeMapEntries [] es) = Yaml.map es
    rw [mergeMapEntries_disjoint es [] hnd (by simp)]
    simp

/-- Claim C6, witness for the amended theorem at concrete inputs. -/
theorem C6_unit_laws_witness :
    ((([("a", Yaml.int 1), ("b", Yaml.int 2)] :
        List (String × Yaml)).map Prod.fst).Nodup) ∧
    merge_with_defaults (.seq [.int 7]) (.map []) = .seq [.int 7] ∧
    merge_with_defaults (.map []) (.map [("a", Yaml.int 1), ("b", Yaml.int 2)])
      = .map [("a", Yaml.int 1), ("b", Yaml.int 2)] :=
  ⟨by decide, C6_unit_laws.1 (.seq [.int 7]),
    C6_unit_laws.2 [("a", Yaml.int 1), ("b", Yaml.int 2)] (by decide)⟩

/-- Claim C7: an empty sequence in main paired with a non-empty sequence in
defaults is replaced wholesale by the default sequence (both at the raw
sequence pairing and through a mapping key), and the two concrete examples
from the spec: `main.repos=[]` with `defaults.repos=[⟨name:a⟩]` yields
`repos=[⟨name:a⟩]`, and merging repo `a` with settings `⟨x:1⟩` into default
settings `⟨x:2,y:3⟩` yields settings `⟨x:1,y:3⟩` (main scalar wins, missing
key filled). -/
theorem C7_empty_sequence_override :
    (∀ (d : Yaml) (ds : List Yaml),
      merge_with_defaults (.seq []) (.seq (d :: ds)) = .seq (d :: ds)) ∧
    (∀ (k : String) (d : Yaml) (ds : List Yaml),
      merge_with_defaults (.map [(k, .seq [])]) (.map [(k, .seq (d :: ds))])
        = .map [(k, .seq (d :: ds))]) ∧
    (merge_with_defaults (.map [("repos", .seq [])])
        (.map [("repos", .seq [.map [("name", .str "a")]])])
      = .map [("repos", .seq [.map [("name", .str "a")]])]) ∧
    (merge_with_defaults
        (.map [("repos", .seq [.map [("name", .str "a"),
          ("settings", .map [("x", .int 1)])]])])
        (.map [("repos", .seq [.map [("name", .str "a"),
          ("settings", .map [("x", .int 2), ("y", .int 3)])]])])
      = .map [("repos", .seq [.map [("name", .str "a"),
          ("settings", .map [("x", .int 1), ("y", .int 3)])]])]) := by
  refine ⟨fun d ds => rfl, fun k d ds => ?_, by decide, by decide⟩
  show Yaml.map (mergeMapEntries [(k, .seq [])] [(k, .seq (d :: ds))]) = _
  simp [mergeMapEntries, swapRemove, mapInsert, isEmptySeqPair,
    List.findIdx?_cons]

/-- Claim C9, counterexample: the claim asserts that the overall order of
the main elements is NOT preserved whenever some main element matches a
default element.  Here main is `[⟨name:a⟩, ⟨name:b⟩]`, the default
`⟨name:a⟩` matches the first main element, and the merged sequence is
literally the main sequence again — a match occurred yet the order of
main elements is exactly preserved. -/
theorem C9_counterexample :
    elemName (Yaml.map [("name", Yaml.str "a")]) =
      elemName (Yaml.map [("name", Yaml.str "a")]) ∧
    merge_with_defaults
        (.seq [.map [("name", .str "a")], .map [("name", .str "b")]])
        (.seq [.map [("name", .str "a")]])
      = .seq [.map [("name", .str "a")], .map [("name", .str "b")]] :=
  ⟨rfl, by decide⟩

/-- Claim C9, amended: for a non-empty main sequence whose named elements
have pairwise distinct names, the merged sequence lists the processed
defaults first, in defaults order (name-matched defaults replaced by the
recursive merge with the first name-matching main element), followed by the
unmatched main elements in their original relative order.  The order of
main elements is therefore not preserved in general, but it CAN be
preserved even when a match occurs (see the counterexample), so the
"whenever" in the original claim is too strong. -/
theorem C9_merged_sequence_order (m : Yaml) (ms ds : List Yaml)
    (hnd : ((m :: ms).filterMap elemName).Nodup) :
    merge_with_defaults (.seq (m :: ms)) (.seq ds)
      = .seq (ds.map (specStep (m :: ms)) ++
          (m :: ms).filter (keepsAgainst ds)) :=
  merge_seq_structure m ms ds hnd

theorem C9_merged_sequence_order_witness :
    ((([Yaml.map [("name", .str "b")],
        Yaml.map [("name", .str "a"), ("x", .int 1)]] :
          List Yaml).filterMap elemName).Nodup) ∧
    merge_with_defaults
        (.seq [.map [("name", .str "b")],
          .map [("name", .str "a"), ("x", .int 1)]])
        (.seq [.map [("name", .str "a")]])
      = .seq (([Yaml.map [("name", .str "a")]].map
          (specStep [.map [("name", .str "b")],
            .map [("name", .str "a"), ("x", .int 1)]])) ++
          ([Yaml.map [("name", .str "b")],
            Yaml.map [("name", .str "a"), ("x", .int 1)]].filter
              (keepsAgainst [.map [("name", .str "a")]]))) :=
  ⟨by decide, C9_merged_sequence_order (.map [("name", .str "b")])
    [.map [("name", .str "a"), ("x", .int 1)]]
    [.map [("name", .str "a")]] (by decide)⟩


theorem httpGet_res_error (env : GhEnv) (url : String) (e : AppErr)
    (hne : trimEmpty url = false) (h : env.rawGet url = .error e) :
    (httpGet env url).res = .error e := by
  unfold httpGet
  rw [hne]
  simp only [Bool.false_eq_true, if_false, h]

theorem get_repo_settings_res_error (env : GhEnv) (org repoName : String)
    (e : AppErr) (hne : trimEmpty (repoUrl org repoName) = false)
    (h : env.rawGet (repoUrl org repoName) = .error e) :
    (get_repo_settings env org repoName).res = .error e := by
  unfold get_repo_settings
  rw [bind_eq]
  exact bind_res_error (httpGet_res_error env _ e hne h)

theorem get_webhooks_res_error (env : GhEnv) (org repoName : String)
    (e : AppErr) (hne : trimEmpty (hooksUrl org repoName) = false)
    (h : env.rawGet (hooksUrl org repoName) = .error e) :
    (get_webhooks env org repoName).res = .error e := by
  unfold get_webhooks
  rw [bind_eq]
  exact bind_res_error (httpGet_res_error env _ e hne h)

theorem get_team_res_error (env : GhEnv) (org teamName : String) (e : AppErr)
    (hne : trimEmpty (teamUrl org teamName) = false)
    (h : env.rawGet (teamUrl org teamName) = .error e)
    (h404 : ∀ msg, e = .gitHubApi msg → containsSub msg "404" = false) :
    (get_team env org teamName).res = .error e := by
  unfold get_team
  rw [bind_eq]
  unfold OpOut.bind attempt httpGet
  rw [hne]
  simp only [Bool.false_eq_true, if_false, h]
  rcases e with msg | msg | msg | msg
  · show (if containsSub msg "404" = true then (pure none : OpOut (Option String))
      else opFail (AppErr.gitHubApi msg)).res = Except.error (AppErr.gitHubApi msg)
    rw [h404 msg rfl]
    simp only [Bool.false_eq_true, if_false]
    rfl
  · rfl
  · rfl
  · rfl

theorem get_user_membership_res_error (env : GhEnv) (org login : String)
    (e : AppErr) (hne : trimEmpty (membershipUrl org login) = false)
    (h : env.rawGet (membershipUrl org login) = .error e)
    (h404 : ∀ msg, e = .gitHubApi msg → containsSub msg "404" = false) :
    (get_user_membership env org login).res = .error e := by
  unfold get_user_membership
  rw [bind_eq]
  unfold OpOut.bind attempt httpGet
  rw [hne]
  simp only [Bool.false_eq_true, if_false, h]
  rcases e with msg | msg | msg | msg
  · show (if containsSub msg "404" = true then (pure none : OpOut (Option String))
      else opFail (AppErr.gitHubApi msg)).res = Except.error (AppErr.gitHubApi msg)
    rw [h404 msg rfl]
    simp only [Bool.false_eq_true, if_false]
    rfl
  · rfl
  · rfl
  · rfl

theorem get_team_repo_permission_res_error (env : GhEnv)
    (org teamName repoName : String) (e : AppErr)
    (hne : trimEmpty (teamRepoUrl org teamName repoName) = false)
    (h : env.rawGet (teamRepoUrl org teamName repoName) = .error e)
    (h404 : ∀ msg, e = .gitHubApi msg → containsSub msg "404" = false) :
    (get_team_repo_permission env org teamName repoName).res = .error e := by
  unfold get_team_repo_permission
  rw [bind_eq]
  unfold OpOut.bind attempt httpGet
  rw [hne]
  simp only [Bool.false_eq_true, if_false, h]
  rcases e with msg | msg | msg | msg
  · show (if containsSub msg "404" = true then (pure none : OpOut (Option String))
      else opFail (AppErr.gitHubApi msg)).res = Except.error (AppErr.gitHubApi msg)
    rw [h404 msg rfl]
    simp only [Bool.false_eq_true, if_false]
    rfl
  · rfl
  · rfl
  · rfl

theorem update_repo_settings_res_error (env : GhEnv)
    (mapping : String → Option ApiFieldMapping) (org : String) (repo : Repo)
    (dryRun : Bool) (e : AppErr)
    (hne : trimEmpty (repoUrl org repo.name) = false)
    (h : env.rawGet (repoUrl org repo.name) = .error e) :
    (update_repo_settings env mapping org repo dryRun).res = .error e := by
  unfold update_repo_settings
  rw [bind_eq]
  exact bind_res_error (get_repo_settings_res_error env org repo.name e hne h)

theorem manage_webhooks_res_error (env : GhEnv) (org repoName : String)
    (webhook : WebhookConfig) (dryRun : Bool) (e : AppErr)
    (hne : trimEmpty (hooksUrl org repoName) = false)
    (h : env.rawGet (hooksUrl org repoName) = .error e) :
    (manage_webhooks env org repoName webhook dryRun).res = .error e := by
  unfold manage_webhooks
  rw [bind_eq]
  exact bind_res_error (get_webhooks_res_error env org repoName e hne h)

theorem create_team_res_error (env : GhEnv) (org : String) (team : Team)
    (dryRun : Bool) (e : AppErr)
    (hne : trimEmpty (teamUrl org team.name) = false)
    (h : env.rawGet (teamUrl org team.name) = .error e)
    (h404 : ∀ msg, e = .gitHubApi msg → containsSub msg "404" = false) :
    (create_team env org team dryRun).res = .error e := by
  unfold create_team
  rw [bind_eq]
  exact bind_res_error (get_team_res_error env org team.name e hne h h404)

theorem add_user_to_org_dry_res_error (env : GhEnv) (org : String)
    (user : User) (e : AppErr)
    (hne : trimEmpty (membershipUrl org user.login) = false)
    (h : env.rawGet (membershipUrl org user.login) = .error e)
    (h404 : ∀ msg, e = .gitHubApi msg → containsSub msg "404" = false) :
    (add_user_to_org env org user true).res = .error e := by
  unfold add_user_to_org
  simp only [if_true]
  rw [bind_eq]
  exact bind_res_error (get_user_membership_res_error env org user.login e hne h h404)

theorem assign_team_to_repo_dry_res_error (env : GhEnv) (org : String)
    (assignment : Assignment) (e : AppErr)
    (hne : trimEmpty (teamRepoUrl org assignment.team assignment.repo) = false)
    (h : env.rawGet (teamRepoUrl org assignment.team assignment.repo) = .error e)
    (h404 : ∀ msg, e = .gitHubApi msg → containsSub msg "404" = false) :
    (assign_team_to_repo env org assignment true).res = .error e := by
  unfold assign_team_to_repo
  simp only [if_true]
  rw [bind_eq]
  exact bind_res_error
    (get_team_repo_permission_res_error env org assignment.team assignment.repo e hne h h404)

theorem bind_res_ok {α β : Type} {x : OpOut α} {f : α → OpOut β} {a : α}
    (h : x.res = .ok a) : (OpOut.bind x f).res = (f a).res := by
  unfold OpOut.bind; rw [h]

theorem bind_logInfo_res {β : Type} (msg : String) (f : Unit → OpOut β) :
    (OpOut.bind (logInfo msg) f).res = (f ()).res := rfl

theorem sync_dry_res_error (env : GhEnv)
    (mapping : String → Option ApiFieldMapping) (org repoName : String)
    (settings : List (String × Yaml)) (vis : Option String)
    (bp : List BranchProtectionRule) (ex : List (String × Yaml))
    (dw : WebhookConfig) (e : AppErr)
    (hname : trimEmpty repoName = false)
    (hne : trimEmpty (repoUrl org repoName) = false)
    (h : env.rawGet (repoUrl org repoName) = .error e) :
    (sync env mapping
      ⟨org, [⟨repoName, settings, vis, none, bp, ex⟩], [], [], [], some dw, [], []⟩
      true).res = .error e := by
  have h1 : (syncRepos env mapping org true
      [⟨repoName, settings, vis, some dw, bp, ex⟩]).res = .error e := by
    unfold syncRepos
    rw [bind_eq, bind_logInfo_res]
    split
    · rename_i hcond
      rw [hname] at hcond
      cases hcond
    · rw [bind_eq]
      exact bind_res_error (update_repo_settings_res_error env mapping org _ true e hne h)
  unfold sync
  simp only [if_true]
  rw [bind_eq, bind_logInfo_res]
  have hbf : backfillWebhooks
      ⟨org, [⟨repoName, settings, vis, none, bp, ex⟩], [], [], [], some dw, [], []⟩
      = .ok ⟨org, [⟨repoName, settings, vis, some dw, bp, ex⟩], [], [], [],
          some dw, [], []⟩ := rfl
  rw [hbf]
  apply bind_res_error
  exact h1

/-- Claim C5: with dry_run=true, every reconciler operation
(update_repo_settings, manage_webhooks, create_team, add_user_to_org,
assign_team_to_repo, sync) issues only GET requests — zero PATCH/PUT/POST —
and the failure of the read used to compute the would-be action propagates
as an error (a GitHub API error containing 404 is treated as absence by
the existence-check getters, so the propagation conjuncts exclude it). -/
theorem C5_dry_run_only_reads :
    (∀ (env : GhEnv) (mapping : String → Option ApiFieldMapping) (org : String)
      (repo : Repo), OnlyGets (update_repo_settings env mapping org repo true).trace) ∧
    (∀ (env : GhEnv) (org repoName : String) (webhook : WebhookConfig),
      OnlyGets (manage_webhooks env org repoName webhook true).trace) ∧
    (∀ (env : GhEnv) (org : String) (team : Team),
      OnlyGets (create_team env org team true).trace) ∧
    (∀ (env : GhEnv) (org : String) (user : User),
      OnlyGets (add_user_to_org env org user true).trace) ∧
    (∀ (env : GhEnv) (org : String) (assignment : Assignment),
      OnlyGets (assign_team_to_repo env org assignment true).trace) ∧
    (∀ (env : GhEnv) (mapping : String → Option ApiFieldMapping) (config : Config),
      OnlyGets (sync env mapping config true).trace) ∧
    (∀ (env : GhEnv) (mapping : String → Option ApiFieldMapping) (org : String)
      (repo : Repo) (e : AppErr),
      trimEmpty (repoUrl org repo.name) = false →
      env.rawGet (repoUrl org repo.name) = .error e →
      (update_repo_settings env mapping org repo true).res = .error e) ∧
    (∀ (env : GhEnv) (org repoName : String) (webhook : WebhookConfig) (e : AppErr),
      trimEmpty (hooksUrl org repoName) = false →
      env.rawGet (hooksUrl org repoName) = .error e →
      (manage_webhooks env org repoName webhook true).res = .error e) ∧
    (∀ (env : GhEnv) (org : String) (team : Team) (e : AppErr),
      trimEmpty (teamUrl org team.name) = false →
      env.rawGet (teamUrl org team.name) = .error e →
      (∀ msg, e = .gitHubApi msg → containsSub msg "404" = false) →
      (create_team env org team true).res = .error e) ∧
    (∀ (env : GhEnv) (org : String) (user : User) (e : AppErr),
      trimEmpty (membershipUrl org user.login) = false →
      env.rawGet (membershipUrl org user.login) = .error e →
      (∀ msg, e = .gitHubApi msg → containsSub msg "404" = false) →
      (add_user_to_org env org user true).res = .error e) ∧
    (∀ (env : GhEnv) (org : String) (assignment : Assignment) (e : AppErr),
      trimEmpty (teamRepoUrl org assignment.team assignment.repo) = false →
      env.rawGet (teamRepoUrl org assignment.team assignment.repo) = .error e →
      (∀ msg, e = .gitHubApi msg → containsSub msg "404" = false) →
      (assign_team_to_repo env org assignment true).res = .error e) ∧
    (∀ (env : GhEnv) (mapping : String → Option ApiFieldMapping)
      (org repoName : String) (settings : List (String × Yaml))
      (vis : Option String) (bp : List BranchProtectionRule)
      (ex : List (String × Yaml)) (dw : WebhookConfig) (e : AppErr),
      trimEmpty repoName = false →
      trimEmpty (repoUrl org repoName) = false →
      env.rawGet (repoUrl org repoName) = .error e →
      (sync env mapping
        ⟨org, [⟨repoName, settings, vis, none, bp, ex⟩], [], [], [], some dw, [], []⟩
        true).res = .error e) := by
  refine ⟨?_, ?_, ?_, ?_, ?_, ?_, ?_, ?_, ?_, ?_, ?_, ?_⟩
  · exact fun env mapping org repo => onlyGets_update_repo_settings_dry env mapping org repo
  · exact fun env org repoName webhook => onlyGets_manage_webhooks_dry env org repoName webhook
  · exact fun env org team => onlyGets_create_team_dry env org team
  · exact fun env org user => onlyGets_add_user_to_org_dry env org user
  · exact fun env org assignment => onlyGets_assign_team_to_repo_dry env org assignment
  · exact fun env mapping config => onlyGets_sync_dry env mapping config
  · exact fun env mapping org repo e hne h =>
      update_repo_settings_res_error env mapping org repo true e hne h
  · exact fun env org repoName webhook e hne h =>
      manage_webhooks_res_error env org repoName webhook true e hne h
  · exact fun env org team e hne h h404 =>
      create_team_res_error env org team true e hne h h404
  · exact fun env org user e hne h h404 =>
      add_user_to_org_dry_res_error env org user e hne h h404
  · exact fun env org assignment e hne h h404 =>
      assign_team_to_repo_dry_res_error env org assignment e hne h h404
  · exact fun env mapping org repoName settings vis bp ex dw e hname hne h =>
      sync_dry_res_error env mapping org repoName settings vis bp ex dw e hname hne h

/-- Claim C5, witness: propagation of a failed read at concrete inputs
(an oracle whose every GET fails with a transport error). -/
theorem C5_dry_run_only_reads_witness :
    (trimEmpty (repoUrl "acme" "r1") = false) ∧
    (update_repo_settings envGetFail mappingNone "acme"
      ⟨"r1", [], none, none, [], []⟩ true).res = .error (.http "boom") ∧
    (manage_webhooks envGetFail "acme" "r1"
      ⟨"https://h.example.com/hook", "json", []⟩ true).res = .error (.http "boom") ∧
    (create_team envGetFail "acme" ⟨"infra", []⟩ true).res = .error (.http "boom") ∧
    (add_user_to_org envGetFail "acme" ⟨"alice", "member"⟩ true).res
      = .error (.http "boom") ∧
    (assign_team_to_repo envGetFail "acme" ⟨"r1", "infra", "push"⟩ true).res
      = .error (.http "boom") ∧
    (sync envGetFail mappingNone
      ⟨"acme", [⟨"r1", [], none, none, [], []⟩], [], [], [],
        some ⟨"https://h.example.com/hook", "json", []⟩, [], []⟩ true).res
      = .error (.http "boom") := by
  have h := C5_dry_run_only_reads
  refine ⟨by decide, ?_, ?_, ?_, ?_, ?_, ?_⟩
  · exact h.2.2.2.2.2.2.1 envGetFail mappingNone "acme"
      ⟨"r1", [], none, none, [], []⟩ (.http "boom") (by decide) rfl
  · exact h.2.2.2.2.2.2.2.1 envGetFail "acme" "r1"
      ⟨"https://h.example.com/hook", "json", []⟩ (.http "boom") (by decide) rfl
  · exact h.2.2.2.2.2.2.2.2.1 envGetFail "acme" ⟨"infra", []⟩ (.http "boom")
      (by decide) rfl (fun msg hm => AppErr.noConfusion hm)
  · exact h.2.2.2.2.2.2.2.2.2.1 envGetFail "acme" ⟨"alice", "member"⟩ (.http "boom")
      (by decide) rfl (fun msg hm => AppErr.noConfusion hm)
  · exact h.2.2.2.2.2.2.2.2.2.2.1 envGetFail "acme" ⟨"r1", "infra", "push"⟩
      (.http "boom") (by decide) rfl (fun msg hm => AppErr.noConfusion hm)
  · exact h.2.2.2.2.2.2.2.2.2.2.2 envGetFail mappingNone "acme" "r1" [] none [] []
      ⟨"https://h.example.com/hook", "json", []⟩ (.http "boom") (by decide)
      (by decide) rfl

/-- Claim C10: when the team-repo permission GET succeeds with an empty
response body, `get_team_repo_permission` reports `Some "push")` (neither
an error nor `None`), and a dry-run `assign_team_to_repo` against such a
response treats the current permission as `push`: it succeeds with only
the GET issued, logs a would-update line (from `push` to the desired
permission) when the desired permission differs from `push`, and logs no
info line when the desired permission is `push`. -/
theorem C10_empty_permission_body (env : GhEnv) (org teamName repoName p : String)
    (hne : trimEmpty (teamRepoUrl org teamName repoName) = false)
    (hbody : env.rawGet (teamRepoUrl org teamName repoName) = .ok .emptyBody) :
    (get_team_repo_permission env org teamName repoName).res = .ok (some "push") ∧
    (assign_team_to_repo env org ⟨repoName, teamName, p⟩ true).res = .ok () ∧
    OnlyGets (assign_team_to_repo env org ⟨repoName, teamName, p⟩ true).trace ∧
    (p ≠ "push" →
      (assign_team_to_repo env org ⟨repoName, teamName, p⟩ true).trace.infos
        = ["[Dry Run] Would update " ++ org ++ "/" ++ repoName ++
            " permission for team " ++ teamName ++ ": " ++ "push" ++ " -> " ++ p]) ∧
    (p = "push" →
      (assign_team_to_repo env org ⟨repoName, teamName, p⟩ true).trace.infos = []) := by
  have hperm : get_team_repo_permission env org teamName repoName
      = ⟨.ok (some "push"),
          ⟨[⟨"GET", teamRepoUrl org teamName repoName, none⟩], [], []⟩⟩ := by
    unfold get_team_repo_permission
    rw [bind_eq]
    unfold OpOut.bind attempt httpGet
    rw [hne]
    simp only [Bool.false_eq_true, if_false, hbody]
    rfl
  have hassign : assign_team_to_repo env org ⟨repoName, teamName, p⟩ true
      = ⟨(if ("push" : String) ≠ p then
            logInfo ("[Dry Run] Would update " ++ org ++ "/" ++ repoName ++
              " permission for team " ++ teamName ++ ": " ++ "push" ++ " -> " ++ p)
          else pure ()).res,
         Trace.append
           ⟨[⟨"GET", teamRepoUrl org teamName repoName, none⟩], [], []⟩
           (if ("push" : String) ≠ p then
              logInfo ("[Dry Run] Would update " ++ org ++ "/" ++ repoName ++
                " permission for team " ++ teamName ++ ": " ++ "push" ++ " -> " ++ p)
            else pure ()).trace⟩ := by
    unfold assign_team_to_repo
    simp only [if_true]
    rw [bind_eq, hperm]
    rfl
  refine ⟨by rw [hperm], ?_, ?_, ?_, ?_⟩
  · rw [hassign]
    by_cases hp : ("push" : String) ≠ p
    · rw [if_pos hp]; rfl
    · rw [if_neg hp]; rfl
  · rw [hassign]
    by_cases hp : ("push" : String) ≠ p
    · rw [if_pos hp]
      intro r hr
      simp only [logInfo, Trace.append, List.append_nil] at hr
      simp only [List.mem_singleton] at hr
      subst hr; rfl
    · rw [if_neg hp]
      intro r hr
      simp only [pure_eq, Trace.nil, Trace.append, List.append_nil] at hr
      simp only [List.mem_singleton] at hr
      subst hr; rfl
  · intro hp
    rw [hassign, if_pos (fun hh => hp hh.symm)]
    rfl
  · intro hp
    rw [hassign, if_neg (fun hh => hh hp.symm)]
    rfl

/-- Claim C10, witness: the empty-body behaviour at concrete inputs
(team `t1`, repo `r1`, desired permission `pull`). -/
theorem C10_empty_permission_body_witness :
    (trimEmpty (teamRepoUrl "acme" "t1" "r1") = false) ∧
    (envPermEmptyBody.rawGet (teamRepoUrl "acme" "t1" "r1") = .ok .emptyBody) ∧
    ((get_team_repo_permission envPermEmptyBody "acme" "t1" "r1").res
      = .ok (some "push") ∧
     (assign_team_to_repo envPermEmptyBody "acme" ⟨"r1", "t1", "pull"⟩ true).res
      = .ok () ∧
     OnlyGets (assign_team_to_repo envPermEmptyBody "acme"
        ⟨"r1", "t1", "pull"⟩ true).trace ∧
     (("pull" : String) ≠ "push" →
       (assign_team_to_repo envPermEmptyBody "acme" ⟨"r1", "t1", "pull"⟩
          true).trace.infos
         = ["[Dry Run] Would update " ++ "acme" ++ "/" ++ "r1" ++
             " permission for team " ++ "t1" ++ ": " ++ "push" ++ " -> " ++ "pull"]) ∧
     (("pull" : String) = "push" →
       (assign_team_to_repo envPermEmptyBody "acme" ⟨"r1", "t1", "pull"⟩
          true).trace.infos = [])) :=
  ⟨by decide, by decide,
    C10_empty_permission_body envPermEmptyBody "acme" "t1" "r1" "pull"
      (by decide) (by decide)⟩

/-- Claim C4, counterexample: the existing hook on `acme/r1` has events
`[push, pull_request]` and the desired webhook lists the same two events in
the other order with the same URL and content type.  The claim says this
must be a no-op; the code compares events as ordered lists and issues a
PATCH update. -/
theorem C4_counterexample :
    hookPushPull.config.url = "https://h.example.com/hook" ∧
    hookPushPull.config.content_type = "json" ∧
    hookPushPull.events ≠ ["pull_request", "push"] ∧
    sortStrings hookPushPull.events = sortStrings ["pull_request", "push"] ∧
    (manage_webhooks envOneHook "acme" "r1"
      ⟨"https://h.example.com/hook", "json", ["pull_request", "push"]⟩
      false).trace.requests.filter (fun r => r.method != "GET")
      = [⟨"PATCH", hooksUrl "acme" "r1" ++ "/" ++ toString (7 : Int),
          some (webhookUpdateBody
            ⟨"https://h.example.com/hook", "json", ["pull_request", "push"]⟩)⟩] := by
  refine ⟨rfl, rfl, by decide, by decide, by decide⟩

/-- Claim C4, amended: the webhook reconciler matches an existing hook by
`config.url` and decides — no existing hook with that URL: one POST create;
an existing hook whose events differ AS ORDERED LISTS or whose content type
differs: one PATCH update by hook id; an existing hook with the same events
in the same order and the same content type: no write.  Events equal up to
reordering but differently ordered count as different and trigger an
update (see the counterexample), so the claim's set comparison is wrong. -/
theorem C4_webhook_decision (env : GhEnv) (org repoName : String)
    (webhook : WebhookConfig) (hooks : List WebhookResponse)
    (hne : trimEmpty (hooksUrl org repoName) = false)
    (hbody : env.rawGet (hooksUrl org repoName) = .ok (.hooksJson hooks)) :
    (hooks.find? (fun h => h.config.url == webhook.url) = none →
      (manage_webhooks env org repoName webhook false).trace.requests.filter
        (fun r => r.method != "GET")
        = [⟨"POST", hooksUrl org repoName, some (webhookCreateBody webhook)⟩]) ∧
    (∀ hook, hooks.find? (fun h => h.config.url == webhook.url) = some hook →
      hook.events = webhook.events →
      hook.config.content_type = webhook.content_type →
      (manage_webhooks env org repoName webhook false).trace.requests.filter
        (fun r => r.method != "GET") = []) ∧
    (∀ hook hid, hooks.find? (fun h => h.config.url == webhook.url) = some hook →
      hook.id = some hid →
      (hook.events ≠ webhook.events ∨
        hook.config.content_type ≠ webhook.content_type) →
      trimEmpty (hooksUrl org repoName ++ "/" ++ toString hid) = false →
      (manage_webhooks env org repoName webhook false).trace.requests.filter
        (fun r => r.method != "GET")
        = [⟨"PATCH", hooksUrl org repoName ++ "/" ++ toString hid,
            some (webhookUpdateBody webhook)⟩]) := by
  have hgw : get_webhooks env org repoName
      = ⟨.ok hooks, ⟨[⟨"GET", hooksUrl org repoName, none⟩], [], []⟩⟩ := by
    unfold get_webhooks
    rw [bind_eq]
    unfold OpOut.bind httpGet
    rw [hne]
    simp only [Bool.false_eq_true, if_false, hbody]
    rfl
  refine ⟨?_, ?_, ?_⟩
  · intro hfind
    have hm : manage_webhooks env org repoName webhook false
        = ⟨(create_webhook env org repoName webhook).res,
           Trace.append ⟨[⟨"GET", hooksUrl org repoName, none⟩], [], []⟩
             (create_webhook env org repoName webhook).trace⟩ := by
      unfold manage_webhooks
      rw [bind_eq, hgw]
      simp only [OpOut.bind, Bool.false_eq_true, if_false, hfind]
    have hcw : (create_webhook env org repoName webhook).trace.requests
        = [⟨"POST", hooksUrl org repoName, some (webhookCreateBody webhook)⟩] := by
      unfold create_webhook send_post
      rw [bind_eq]
      rcases hw : env.write "POST" (hooksUrl org repoName)
          (some (webhookCreateBody webhook)) with e | u
      · simp [OpOut.bind, logInfo, Trace.append, hw]
      · simp [OpOut.bind, logInfo, Trace.append, hw]
    rw [hm]
    show (([⟨"GET", hooksUrl org repoName, none⟩] : List Request) ++
      (create_webhook env org repoName webhook).trace.requests).filter
        (fun r => r.method != "GET") = _
    rw [hcw]
    rfl
  · intro hook hfind hev hct
    have hm : manage_webhooks env org repoName webhook false
        = ⟨(pure () : OpOut Unit).res,
           Trace.append ⟨[⟨"GET", hooksUrl org repoName, none⟩], [], []⟩
             (pure () : OpOut Unit).trace⟩ := by
      unfold manage_webhooks
      rw [bind_eq, hgw]
      simp only [OpOut.bind, Bool.false_eq_true, if_false, hfind]
      rw [if_neg]
      simp [hev, hct]
    rw [hm]
    rfl
  · intro hook hid hfind hidv hdiff hne2
    have hm : manage_webhooks env org repoName webhook false
        = ⟨(update_webhook env org repoName hid webhook).res,
           Trace.append ⟨[⟨"GET", hooksUrl org repoName, none⟩], [], []⟩
             (update_webhook env org repoName hid webhook).trace⟩ := by
      unfold manage_webhooks
      rw [bind_eq, hgw]
      simp only [OpOut.bind, Bool.false_eq_true, if_false, hfind]
      rw [if_pos hdiff, hidv]
    have hup : (update_webhook env org repoName hid webhook).trace.requests
        = [⟨"PATCH", hooksUrl org repoName ++ "/" ++ toString hid,
            some (webhookUpdateBody webhook)⟩] := by
      unfold update_webhook send_patch
      rw [bind_eq]
      rw [hne2]
      simp only [Bool.false_eq_true, if_false]
      rcases hw : env.write "PATCH"
          (hooksUrl org repoName ++ "/" ++ toString hid)
          (some (webhookUpdateBody webhook)) with e | u
      · simp [OpOut.bind, logInfo, Trace.append, hw]
      · simp [OpOut.bind, logInfo, Trace.append, hw]
    rw [hm]
    show (([⟨"GET", hooksUrl org repoName, none⟩] : List Request) ++
      (update_webhook env org repoName hid webhook).trace.requests).filter
        (fun r => r.method != "GET") = _
    rw [hup]
    rfl

/-- Claim C4, witness for the amended decision table: the concrete
`acme/r1` oracle exercising the update arm (events reordered - PATCH). -/
theorem C4_webhook_decision_witness :
    (trimEmpty (hooksUrl "acme" "r1") = false) ∧
    (envOneHook.rawGet (hooksUrl "acme" "r1") = .ok (.hooksJson [hookPushPull])) ∧
    ([hookPushPull].find? (fun h =>
        h.config.url == "https://h.example.com/hook") = some hookPushPull) ∧
    ((manage_webhooks envOneHook "acme" "r1"
      ⟨"https://h.example.com/hook", "json", ["pull_request", "push"]⟩
      false).trace.requests.filter (fun r => r.method != "GET")
      = [⟨"PATCH", hooksUrl "acme" "r1" ++ "/" ++ toString (7 : Int),
          some (webhookUpdateBody
            ⟨"https://h.example.com/hook", "json", ["pull_request", "push"]⟩)⟩]) :=
  ⟨by decide, by decide, by decide,
    (C4_webhook_decision envOneHook "acme" "r1"
      ⟨"https://h.example.com/hook", "json", ["pull_request", "push"]⟩
      [hookPushPull] (by decide) (by decide)).2.2 hookPushPull 7 (by decide)
      (by decide) (by decide) (by decide)⟩

/-- Claim C8, counterexample: a batch whose mapped HTTP method is `DELETE`
(unsupported).  The claim says the failure is surfaced rather than the
batch being skipped with a successful result; the code logs
`Unsupported HTTP method: DELETE` via `error!`, skips the batch (no
mutating request) and `update_repo_settings` still returns `Ok`. -/
theorem C8_counterexample :
    (update_repo_settings envRepoNoSettings deleteMapping "acme"
      ⟨"r1", [("weird_setting", .bool true)], none, none, [], []⟩ false).res
      = .ok () ∧
    (update_repo_settings envRepoNoSettings deleteMapping "acme"
      ⟨"r1", [("weird_setting", .bool true)], none, none, [], []⟩
      false).trace.requests.filter (fun r => r.method != "GET") = [] ∧
    (update_repo_settings envRepoNoSettings deleteMapping "acme"
      ⟨"r1", [("weird_setting", .bool true)], none, none, [], []⟩
      false).trace.errs = ["Unsupported HTTP method: DELETE"] := by
  refine ⟨by decide, by decide, by decide⟩

/-- Claim C8, amended: in applied mode, a batch whose stored method is none
of PATCH/PUT/POST is logged via an `error!` line and SKIPPED: no mutating
request is issued for it and `update_repo_settings` still returns `Ok` —
the failure is visible in the log only, not in the result. -/
theorem C8_unsupported_method_skipped (env : GhEnv)
    (mapping : String → Option ApiFieldMapping) (org repoName k : String)
    (v : Yaml) (rt ck ep jp m : String)
    (current : List (String × Yaml)) (vis : Option String)
    (bp : List BranchProtectionRule) (ex : List (String × Yaml))
    (hne : trimEmpty (repoUrl org repoName) = false)
    (hbody : env.rawGet (repoUrl org repoName) = .ok (.repoJson current))
    (hmap : mapping k = some ⟨rt, ck, ep, m, jp⟩)
    (hdiff : current.lookup k ≠ some v)
    (hm1 : m ≠ "PATCH") (hm2 : m ≠ "PUT") (hm3 : m ≠ "POST") :
    (update_repo_settings env mapping org ⟨repoName, [(k, v)], vis, none, bp, ex⟩
      false).res = .ok () ∧
    (update_repo_settings env mapping org ⟨repoName, [(k, v)], vis, none, bp, ex⟩
      false).trace.requests
      = [⟨"GET", repoUrl org repoName, none⟩] ∧
    (update_repo_settings env mapping org ⟨repoName, [(k, v)], vis, none, bp, ex⟩
      false).trace.errs = ["Unsupported HTTP method: " ++ m] := by
  have hgrs : get_repo_settings env org repoName
      = ⟨.ok current, ⟨[⟨"GET", repoUrl org repoName, none⟩], [], []⟩⟩ := by
    unfold get_repo_settings
    rw [bind_eq]
    unfold OpOut.bind httpGet
    rw [hne]
    simp only [Bool.false_eq_true, if_false, hbody]
    rfl
  have hpend : computePending mapping org repoName current [(k, v)] []
      = [⟨GITHUB_API_BASE_URL ++ substEndpoint org repoName ep, m, [(jp, v)]⟩] := by
    simp only [computePending, hmap]
    rw [if_pos hdiff]
    rfl
  have hdisp : dispatchWrite env
      (GITHUB_API_BASE_URL ++ substEndpoint org repoName ep) [(jp, v)] m
      = logError ("Unsupported HTTP method: " ++ m) := by
    unfold dispatchWrite
    split
    · exact absurd rfl hm1
    · exact absurd rfl hm2
    · exact absurd rfl hm3
    · rfl
  have happly : applyPending env repoName false
      [⟨GITHUB_API_BASE_URL ++ substEndpoint org repoName ep, m, [(jp, v)]⟩]
      = ⟨.ok (), ⟨[], ["Unsupported HTTP method: " ++ m],
          ["Applied relevant settings changes for repo " ++ repoName ++ " via " ++
            (GITHUB_API_BASE_URL ++ substEndpoint org repoName ep)]⟩⟩ := by
    unfold applyPending
    simp only [List.isEmpty_cons, Bool.false_eq_true, if_false]
    rw [bind_eq, hdisp]
    rfl
  have hop : update_repo_settings env mapping org
      ⟨repoName, [(k, v)], vis, none, bp, ex⟩ false
      = ⟨.ok (), ⟨[⟨"GET", repoUrl org repoName, none⟩],
          ["Unsupported HTTP method: " ++ m],
          ["Applied relevant settings changes for repo " ++ repoName ++ " via " ++
            (GITHUB_API_BASE_URL ++ substEndpoint org repoName ep)]⟩⟩ := by
    unfold update_repo_settings
    rw [bind_eq, hgrs]
    simp only [OpOut.bind]
    rw [bind_eq, hpend, happly]
    rfl
  rw [hop]
  exact ⟨rfl, rfl, rfl⟩

/-- Claim C8, witness for the amended theorem at the concrete
`DELETE`-mapped input. -/
theorem C8_unsupported_method_skipped_witness :
    (trimEmpty (repoUrl "acme" "r1") = false) ∧
    (envRepoNoSettings.rawGet (repoUrl "acme" "r1") = .ok (.repoJson [])) ∧
    (deleteMapping "weird_setting"
      = some ⟨"repo", "weird_setting", "/repos/{owner}/{repo}/weird", "DELETE",
          "weird_setting"⟩) ∧
    ((update_repo_settings envRepoNoSettings deleteMapping "acme"
        ⟨"r1", [("weird_setting", .bool true)], none, none, [], []⟩ false).res
        = .ok () ∧
      (update_repo_settings envRepoNoSettings deleteMapping "acme"
        ⟨"r1", [("weird_setting", .bool true)], none, none, [], []⟩
        false).trace.requests = [⟨"GET", repoUrl "acme" "r1", none⟩] ∧
      (update_repo_settings envRepoNoSettings deleteMapping "acme"
        ⟨"r1", [("weird_setting", .bool true)], none, none, [], []⟩
        false).trace.errs = ["Unsupported HTTP method: " ++ "DELETE"]) :=
  ⟨by decide, by decide, by decide,
    C8_unsupported_method_skipped envRepoNoSettings deleteMapping "acme" "r1"
      "weird_setting" (.bool true) "repo" "weird_setting"
      "/repos/{owner}/{repo}/weird" "weird_setting" "DELETE" [] none [] []
      (by decide) (by decide) (by decide) (by decide) (by decide) (by decide)
      (by decide)⟩

theorem addMembersStrict_prefix_fail (env : GhEnv) (org teamName mem : String)
    (suf : List String) (e : AppErr) :
    ∀ pre : List String,
      (∀ x ∈ pre, env.write "PUT" (teamMembershipUrl org teamName x) none = .ok ()) →
      env.write "PUT" (teamMembershipUrl org teamName mem) none = .error e →
      (addMembersStrict env org teamName (pre ++ mem :: suf)).res = .error e ∧
      (addMembersStrict env org teamName (pre ++ mem :: suf)).trace.requests
        = pre.map (fun x => ⟨"PUT", teamMembershipUrl org teamName x, none⟩) ++
            [⟨"PUT", teamMembershipUrl org teamName mem, none⟩] := by
  intro pre
  induction pre with
  | nil =>
    intro _ hmem
    constructor
    · show (OpOut.bind (send_put env (teamMembershipUrl org teamName mem) none)
        _).res = .error e
      apply bind_res_error
      unfold send_put
      rw [hmem]
    · show (OpOut.bind (send_put env (teamMembershipUrl org teamName mem) none)
        _).trace.requests = _
      unfold OpOut.bind send_put
      rw [hmem]
      rfl
  | cons x pre ih =>
    intro hpre hmem
    have hx : env.write "PUT" (teamMembershipUrl org teamName x) none = .ok () :=
      hpre x (by simp)
    have ih2 := ih (fun y hy => hpre y (by simp [hy])) hmem
    have hput : send_put env (teamMembershipUrl org teamName x) none
        = ⟨.ok (), ⟨[⟨"PUT", teamMembershipUrl org teamName x, none⟩], [], []⟩⟩ := by
      unfold send_put
      rw [hx]
    have hstep : addMembersStrict env org teamName ((x :: pre) ++ mem :: suf)
        = OpOut.bind ⟨.ok (), ⟨[⟨"PUT", teamMembershipUrl org teamName x, none⟩],
            [], []⟩⟩
          (fun _ => OpOut.bind
            (logInfo ("Added " ++ x ++ " to team " ++ teamName))
            (fun _ => addMembersStrict env org teamName (pre ++ mem :: suf))) := by
      show OpOut.bind (send_put env (teamMembershipUrl org teamName x) none) _ = _
      rw [hput]
      rfl
    rw [hstep]
    constructor
    · exact ih2.1
    · show ([⟨"PUT", teamMembershipUrl org teamName x, none⟩] : List Request) ++
        ([] ++ (addMembersStrict env org teamName (pre ++ mem :: suf)).trace.requests)
        = _
      rw [ih2.2]
      rfl

theorem addMembersTolerant_all (env : GhEnv) (org teamName : String) :
    ∀ members : List String,
      (addMembersTolerant env org teamName members).res = .ok () ∧
      (addMembersTolerant env org teamName members).trace.requests
        = members.map (fun x => ⟨"PUT", teamMembershipUrl org teamName x, none⟩) := by
  intro members
  induction members with
  | nil => exact ⟨rfl, rfl⟩
  | cons x rest ih =>
    rcases hw : env.write "PUT" (teamMembershipUrl org teamName x) none with e | u
    · have hput : send_put env (teamMembershipUrl org teamName x) none
          = ⟨.error e, ⟨[⟨"PUT", teamMembershipUrl org teamName x, none⟩],
              ["PUT " ++ teamMembershipUrl org teamName x ++ " failed"], []⟩⟩ := by
        unfold send_put
        rw [hw]
      constructor
      · show (OpOut.bind
          (attempt (send_put env (teamMembershipUrl org teamName x) none)) _).res
          = .ok ()
        rw [hput]
        exact ih.1
      · show (OpOut.bind
          (attempt (send_put env (teamMembershipUrl org teamName x) none))
          _).trace.requests = _
        rw [hput]
        show ([⟨"PUT", teamMembershipUrl org teamName x, none⟩] : List Request) ++
          ([] ++ (addMembersTolerant env org teamName rest).trace.requests) = _
        rw [ih.2]
        rfl
    · have hput : send_put env (teamMembershipUrl org teamName x) none
          = ⟨.ok (), ⟨[⟨"PUT", teamMembershipUrl org teamName x, none⟩], [], []⟩⟩ := by
        unfold send_put
        rw [hw]
      constructor
      · show (OpOut.bind
          (attempt (send_put env (teamMembershipUrl org teamName x) none)) _).res
          = .ok ()
        rw [hput]
        exact ih.1
      · show (OpOut.bind
          (attempt (send_put env (teamMembershipUrl org teamName x) none))
          _).trace.requests = _
        rw [hput]
        show ([⟨"PUT", teamMembershipUrl org teamName x, none⟩] : List Request) ++
          ([] ++ (addMembersTolerant env org teamName rest).trace.requests) = _
        rw [ih.2]
        rfl

theorem get_team_404 (env : GhEnv) (org teamName : String) (e404 : String)
    (hne : trimEmpty (teamUrl org teamName) = false)
    (hget : env.rawGet (teamUrl org teamName) = .error (.gitHubApi e404))
    (h404 : containsSub e404 "404" = true) :
    get_team env org teamName
      = ⟨.ok none, ⟨[⟨"GET", teamUrl org teamName, none⟩],
          ["GET " ++ teamUrl org teamName ++ " failed"], []⟩⟩ := by
  have hhttp : httpGet env (teamUrl org teamName)
      = ⟨.error (.gitHubApi e404), ⟨[⟨"GET", teamUrl org teamName, none⟩],
          ["GET " ++ teamUrl org teamName ++ " failed"], []⟩⟩ := by
    unfold httpGet
    rw [hne]
    simp only [Bool.false_eq_true, if_false, hget]
  unfold get_team
  rw [bind_eq, hhttp]
  simp only [OpOut.bind, attempt, h404]
  rfl

theorem get_team_found (env : GhEnv) (org teamName : String)
    (hne : trimEmpty (teamUrl org teamName) = false)
    (hget : env.rawGet (teamUrl org teamName) = .ok (.teamJson teamName)) :
    get_team env org teamName
      = ⟨.ok (some teamName), ⟨[⟨"GET", teamUrl org teamName, none⟩], [], []⟩⟩ := by
  have hhttp : httpGet env (teamUrl org teamName)
      = ⟨.ok (.teamJson teamName), ⟨[⟨"GET", teamUrl org teamName, none⟩], [], []⟩⟩ := by
    unfold httpGet
    rw [hne]
    simp only [Bool.false_eq_true, if_false, hget]
  unfold get_team
  rw [bind_eq, hhttp]
  simp only [OpOut.bind, attempt, beq_self_eq_true]
  rfl

/-- Claim C1, counterexample: team `infra` does not exist remotely (GET returns
404), the creating POST and the PUT for member `alice` succeed, but the PUT
for the second member `bob` fails: `create_team` in applied mode returns
that error instead of logging it and continuing, contradicting the claim
that a member failure is tolerated in the creation branch. -/
theorem C1_counterexample :
    (create_team envTeamAbsent "acme" ⟨"infra", ["alice", "bob"]⟩ false).res
      = .error (.gitHubApi "boom") ∧
    (create_team envTeamAbsent "acme" ⟨"infra", ["alice", "bob"]⟩
      false).trace.requests
      = [⟨"GET", teamUrl "acme" "infra", none⟩,
         ⟨"POST", teamsUrl "acme",
           some (.map [("name", .str "infra"), ("privacy", .str "closed")])⟩,
         ⟨"PUT", teamMembershipUrl "acme" "infra" "alice", none⟩,
         ⟨"PUT", teamMembershipUrl "acme" "infra" "bob", none⟩] := by
  refine ⟨by decide, by decide⟩

/-- Claim C1, amended: for a team that does not exist remotely, `create_team`
(applied mode) issues one POST and then one PUT per member, but a failing
member PUT aborts the run: the error propagates (`?` in the source), the
remaining members are not attempted, and `create_team` returns that error.
The tolerant per-member behaviour the claim describes holds only in the
branch where the team already exists: there every member is attempted and
the result is `Ok` regardless of member failures. -/
theorem C1_create_team_member_failure (env : GhEnv) (org : String) (team : Team)
    (e404 : String) (e : AppErr) (pre suf : List String) (mem : String)
    (hne : trimEmpty (teamUrl org team.name) = false) :
    (env.rawGet (teamUrl org team.name) = .error (.gitHubApi e404) →
     containsSub e404 "404" = true →
     env.write "POST" (teamsUrl org)
       (some (.map [("name", .str team.name), ("privacy", .str "closed")]))
       = .ok () →
     team.members = pre ++ mem :: suf →
     (∀ x ∈ pre, env.write "PUT" (teamMembershipUrl org team.name x) none
       = .ok ()) →
     env.write "PUT" (teamMembershipUrl org team.name mem) none = .error e →
     (create_team env org team false).res = .error e ∧
     (create_team env org team false).trace.requests
       = ⟨"GET", teamUrl org team.name, none⟩ ::
         ⟨"POST", teamsUrl org,
           some (.map [("name", .str team.name), ("privacy", .str "closed")])⟩ ::
         (pre.map (fun x => ⟨"PUT", teamMembershipUrl org team.name x, none⟩) ++
           [⟨"PUT", teamMembershipUrl org team.name mem, none⟩])) ∧
    (env.rawGet (teamUrl org team.name) = .ok (.teamJson team.name) →
     (create_team env org team false).res = .ok () ∧
     (create_team env org team false).trace.requests
       = ⟨"GET", teamUrl org team.name, none⟩ ::
         team.members.map
           (fun x => ⟨"PUT", teamMembershipUrl org team.name x, none⟩)) := by
  constructor
  · intro hget h404 hpost hmem hpre hfail
    have hteam := get_team_404 env org team.name e404 hne hget h404
    have hpost2 : send_post env (teamsUrl org)
        (.map [("name", .str team.name), ("privacy", .str "closed")])
        = ⟨.ok (), ⟨[⟨"POST", teamsUrl org,
            some (.map [("name", .str team.name), ("privacy", .str "closed")])⟩],
            [], []⟩⟩ := by
      unfold send_post
      rw [hpost]
    have hstrict := addMembersStrict_prefix_fail env org team.name mem suf e
      pre hpre hfail
    constructor
    · show (OpOut.bind (get_team env org team.name) _).res = .error e
      rw [hteam]
      show (OpOut.bind (send_post env (teamsUrl org)
          (.map [("name", .str team.name), ("privacy", .str "closed")]))
        (fun _ => addMembersStrict env org team.name team.members)).res
        = .error e
      rw [hpost2, hmem]
      exact hstrict.1
    · show (OpOut.bind (get_team env org team.name) _).trace.requests = _
      rw [hteam, hpost2]
      show ([⟨"GET", teamUrl org team.name, none⟩] : List Request) ++
        ([] ++ ([⟨"POST", teamsUrl org,
            some (.map [("name", .str team.name), ("privacy", .str "closed")])⟩] ++
          (addMembersStrict env org team.name team.members).trace.requests)) = _
      rw [hmem, hstrict.2]
      rfl
  · intro hget
    have hteam := get_team_found env org team.name hne hget
    have htol := addMembersTolerant_all env org team.name team.members
    constructor
    · show (OpOut.bind (get_team env org team.name) _).res = .ok ()
      rw [hteam]
      exact htol.1
    · show (OpOut.bind (get_team env org team.name) _).trace.requests = _
      rw [hteam]
      show ([⟨"GET", teamUrl org team.name, none⟩] : List Request) ++
        ([] ++ (addMembersTolerant env org team.name team.members
          ).trace.requests) = _
      rw [htol.2]
      rfl

/-- Claim C1, witness: the amended theorem applied to both fixture
environments: the absent-team run aborts with the failing member error
after GET, POST, PUT alice, PUT bob; the existing-team run returns `Ok`
having attempted every member. -/
theorem C1_create_team_member_failure_witness :
    ((create_team envTeamAbsent "acme" ⟨"infra", ["alice", "bob"]⟩ false).res
        = .error (.gitHubApi "boom") ∧
     (create_team envTeamAbsent "acme" ⟨"infra", ["alice", "bob"]⟩
        false).trace.requests
        = ⟨"GET", teamUrl "acme" "infra", none⟩ ::
          ⟨"POST", teamsUrl "acme",
            some (.map [("name", .str "infra"), ("privacy", .str "closed")])⟩ ::
          (["alice"].map (fun x =>
              ⟨"PUT", teamMembershipUrl "acme" "infra" x, none⟩) ++
            [⟨"PUT", teamMembershipUrl "acme" "infra" "bob", none⟩])) ∧
    ((create_team envTeamExists "acme" ⟨"infra", ["alice", "bob"]⟩ false).res
        = .ok () ∧
     (create_team envTeamExists "acme" ⟨"infra", ["alice", "bob"]⟩
        false).trace.requests
        = ⟨"GET", teamUrl "acme" "infra", none⟩ ::
          (["alice", "bob"] : List String).map
            (fun x => ⟨"PUT", teamMembershipUrl "acme" "infra" x, none⟩)) := by
  constructor
  · exact (C1_create_team_member_failure envTeamAbsent "acme"
      ⟨"infra", ["alice", "bob"]⟩ "404 Not Found" (.gitHubApi "boom")
      ["alice"] [] "bob" (by decide)).1 (by decide) (by decide) (by decide)
      rfl (by decide) (by decide)
  · exact (C1_create_team_member_failure envTeamExists "acme"
      ⟨"infra", ["alice", "bob"]⟩ "" (.http "x") [] [] "y" (by decide)).2
      (by decide)

theorem trimEmpty_base (s : String) :
    trimEmpty (GITHUB_API_BASE_URL ++ s) = false := rfl

theorem trimEmpty_repoUrl (org name : String) :
    trimEmpty (repoUrl org name) = false := rfl

theorem bind_ok_congr {α β : Type} (x : OpOut α) (a : α) (f g : α → OpOut β)
    (hx : x.res = .ok a) (h : f a = g a) : OpOut.bind x f = OpOut.bind x g := by
  rcases x with ⟨r, t⟩
  have hr : r = .ok a := hx
  subst hr
  show (⟨(f a).res, t.append (f a).trace⟩ : OpOut β)
    = ⟨(g a).res, t.append (g a).trace⟩
  rw [h]

theorem get_repo_settings_found (env : GhEnv) (org name : String)
    (current : List (String × Yaml))
    (hcur : env.rawGet (repoUrl org name) = .ok (.repoJson current)) :
    get_repo_settings env org name
      = ⟨.ok current, ⟨[⟨"GET", repoUrl org name, none⟩], [], []⟩⟩ := by
  unfold get_repo_settings
  rw [bind_eq]
  have hhttp : httpGet env (repoUrl org name)
      = ⟨.ok (.repoJson current), ⟨[⟨"GET", repoUrl org name, none⟩], [], []⟩⟩ := by
    unfold httpGet
    rw [trimEmpty_repoUrl]
    simp only [Bool.false_eq_true, if_false, hcur]
  rw [hhttp]
  rfl

theorem computePending_skip (mapping : String → Option ApiFieldMapping)
    (org repoName : String) (current : List (String × Yaml)) (k : String)
    (v : Yaml) (suf : List (String × Yaml))
    (h : mapping k = none ∨ current.lookup k = some v) :
    ∀ (pre : List (String × Yaml)) (pends : List PendingEntry),
      computePending mapping org repoName current (pre ++ (k, v) :: suf) pends
        = computePending mapping org repoName current (pre ++ suf) pends := by
  intro pre
  induction pre with
  | nil =>
    intro pends
    show computePending mapping org repoName current ((k, v) :: suf) pends
      = computePending mapping org repoName current suf pends
    rcases h with hmk | hlk
    · simp only [computePending, hmk]
    · rcases hmk : mapping k with _ | fm
      · simp only [computePending, hmk]
      · simp [computePending, hmk, hlk]
  | cons p pre ih =>
    intro pends
    rcases p with ⟨kh, vh⟩
    show computePending mapping org repoName current
        ((kh, vh) :: (pre ++ (k, v) :: suf)) pends
      = computePending mapping org repoName current
        ((kh, vh) :: (pre ++ suf)) pends
    rcases hmk : mapping kh with _ | fm
    · simp only [computePending, hmk]
      exact ih pends
    · simp only [computePending, hmk]
      split
      · exact ih _
      · exact ih pends

theorem applyPending_one (env : GhEnv) (repoName url m : String)
    (b : List (String × Yaml)) (hb : b.isEmpty = false)
    (hm : m = "PATCH" ∨ m = "PUT" ∨ m = "POST")
    (hne : trimEmpty url = false) :
    ∃ (R : Except AppErr Unit) (E I : List String),
      applyPending env repoName false [⟨url, m, b⟩]
        = ⟨R, ⟨[⟨m, url, some (.map b)⟩], E, I⟩⟩ := by
  rcases hm with hm1 | hm1 | hm1 <;> subst hm1
  · rcases hw : env.write "PATCH" url (some (.map b)) with e | u
    · refine ⟨.error e, ["PATCH " ++ url ++ " failed"], [], ?_⟩
      have hsend : send_patch env url (.map b)
          = ⟨.error e, ⟨[⟨"PATCH", url, some (.map b)⟩],
              ["PATCH " ++ url ++ " failed"], []⟩⟩ := by
        unfold send_patch
        rw [hne]
        simp only [Bool.false_eq_true, if_false, hw]
      simp only [applyPending, hb, Bool.false_eq_true, if_false]
      show OpOut.bind (send_patch env url (.map b)) _ = _
      rw [hsend]
      rfl
    · refine ⟨.ok (), [],
        ["Applied relevant settings changes for repo " ++ repoName ++
          " via " ++ url], ?_⟩
      have hsend : send_patch env url (.map b)
          = ⟨.ok (), ⟨[⟨"PATCH", url, some (.map b)⟩], [], []⟩⟩ := by
        unfold send_patch
        rw [hne]
        simp only [Bool.false_eq_true, if_false, hw]
      simp only [applyPending, hb, Bool.false_eq_true, if_false]
      show OpOut.bind (send_patch env url (.map b)) _ = _
      rw [hsend]
      rfl
  · rcases hw : env.write "PUT" url (some (.map b)) with e | u
    · refine ⟨.error e, ["PUT " ++ url ++ " failed"], [], ?_⟩
      have hsend : send_put env url (some (.map b))
          = ⟨.error e, ⟨[⟨"PUT", url, some (.map b)⟩],
              ["PUT " ++ url ++ " failed"], []⟩⟩ := by
        unfold send_put
        rw [hw]
      simp only [applyPending, hb, Bool.false_eq_true, if_false]
      show OpOut.bind (send_put env url (some (.map b))) _ = _
      rw [hsend]
      rfl
    · refine ⟨.ok (), [],
        ["Applied relevant settings changes for repo " ++ repoName ++
          " via " ++ url], ?_⟩
      have hsend : send_put env url (some (.map b))
          = ⟨.ok (), ⟨[⟨"PUT", url, some (.map b)⟩], [], []⟩⟩ := by
        unfold send_put
        rw [hw]
      simp only [applyPending, hb, Bool.false_eq_true, if_false]
      show OpOut.bind (send_put env url (some (.map b))) _ = _
      rw [hsend]
      rfl
  · rcases hw : env.write "POST" url (some (.map b)) with e | u
    · refine ⟨.error e, ["POST " ++ url ++ " failed"], [], ?_⟩
      have hsend : send_post env url (.map b)
          = ⟨.error e, ⟨[⟨"POST", url, some (.map b)⟩],
              ["POST " ++ url ++ " failed"], []⟩⟩ := by
        unfold send_post
        rw [hw]
      simp only [applyPending, hb, Bool.false_eq_true, if_false]
      show OpOut.bind (send_post env url (.map b)) _ = _
      rw [hsend]
      rfl
    · refine ⟨.ok (), [],
        ["Applied relevant settings changes for repo " ++ repoName ++
          " via " ++ url], ?_⟩
      have hsend : send_post env url (.map b)
          = ⟨.ok (), ⟨[⟨"POST", url, some (.map b)⟩], [], []⟩⟩ := by
        unfold send_post
        rw [hw]
      simp only [applyPending, hb, Bool.false_eq_true, if_false]
      show OpOut.bind (send_post env url (.map b)) _ = _
      rw [hsend]
      rfl

/-- Claim C3: in `update_repo_settings`: (a) a settings key with no mapping
entry, or whose desired value equals the observed value, contributes to no
write — dropping it from the settings map leaves the whole operation
unchanged; (b) two desired keys mapped to the same endpoint and method,
both differing from the observed settings, produce exactly one HTTP write
(after the initial GET) to that endpoint, carrying a JSON object with both
`json_path → value` pairs. -/
theorem C3_settings_batch_one_write (env : GhEnv)
    (mapping : String → Option ApiFieldMapping) (org name : String)
    (current : List (String × Yaml)) (vis : Option String)
    (wh : Option WebhookConfig) (bps : List BranchProtectionRule)
    (extra : List (String × Yaml)) (dryRun : Bool)
    (hcur : env.rawGet (repoUrl org name) = .ok (.repoJson current)) :
    (∀ (k : String) (v : Yaml) (pre suf : List (String × Yaml)),
      (mapping k = none ∨ current.lookup k = some v) →
      update_repo_settings env mapping org
          ⟨name, pre ++ (k, v) :: suf, vis, wh, bps, extra⟩ dryRun
        = update_repo_settings env mapping org
          ⟨name, pre ++ suf, vis, wh, bps, extra⟩ dryRun) ∧
    (∀ (k1 k2 c1 s1 c2 s2 ep m p1 p2 : String) (v1 v2 : Yaml),
      mapping k1 = some ⟨c1, s1, ep, m, p1⟩ →
      mapping k2 = some ⟨c2, s2, ep, m, p2⟩ →
      current.lookup k1 ≠ some v1 →
      current.lookup k2 ≠ some v2 →
      p1 ≠ p2 →
      (m = "PATCH" ∨ m = "PUT" ∨ m = "POST") →
      ∃ (E I : List String),
        (update_repo_settings env mapping org
            ⟨name, [(k1, v1), (k2, v2)], vis, none, bps, extra⟩
            false).trace
          = ⟨[⟨"GET", repoUrl org name, none⟩,
              ⟨m, GITHUB_API_BASE_URL ++ substEndpoint org name ep,
                some (.map [(p1, v1), (p2, v2)])⟩], E, I⟩) := by
  have hget := get_repo_settings_found env org name current hcur
  constructor
  · intro k v pre suf hskip
    simp only [update_repo_settings, bind_eq]
    refine bind_ok_congr _ current _ _ ?_ ?_
    · rw [hget]
    · show OpOut.bind (applyPending env name dryRun
          (computePending mapping org name current (pre ++ (k, v) :: suf) []))
          (fun _ => match wh with
            | some webhook => manage_webhooks env org name webhook dryRun
            | none => (pure () : OpOut Unit))
        = OpOut.bind (applyPending env name dryRun
          (computePending mapping org name current (pre ++ suf) []))
          (fun _ => match wh with
            | some webhook => manage_webhooks env org name webhook dryRun
            | none => (pure () : OpOut Unit))
      rw [computePending_skip mapping org name current k v suf hskip pre []]
  · intro k1 k2 c1 s1 c2 s2 ep m p1 p2 v1 v2 hm1 hm2 hd1 hd2 hp hmm
    have hpb : (p1 == p2) = false := beq_eq_false_iff_ne.mpr hp
    have hcp : computePending mapping org name current [(k1, v1), (k2, v2)] []
        = [⟨GITHUB_API_BASE_URL ++ substEndpoint org name ep, m,
            [(p1, v1), (p2, v2)]⟩] := by
      simp only [computePending, hm1, hm2]
      rw [if_pos hd1, if_pos hd2]
      simp only [addPending, bodyInsert, List.any_nil, List.any_cons,
        beq_self_eq_true, hpb, Bool.true_or, Bool.or_false, Bool.false_or,
        List.map_cons, List.map_nil, Bool.false_eq_true, if_false,
        List.nil_append]
      rfl
    obtain ⟨R, E, I, happ⟩ := applyPending_one env name
      (GITHUB_API_BASE_URL ++ substEndpoint org name ep) m
      [(p1, v1), (p2, v2)] rfl hmm (trimEmpty_base _)
    rcases R with e | u
    · refine ⟨E, I, ?_⟩
      show (OpOut.bind (get_repo_settings env org name) _).trace = _
      rw [hget]
      show Trace.append ⟨[⟨"GET", repoUrl org name, none⟩], [], []⟩
          (OpOut.bind (applyPending env name false
            (computePending mapping org name current [(k1, v1), (k2, v2)] []))
            (fun _ => (pure () : OpOut Unit))).trace
        = _
      rw [hcp, happ]
      rfl
    · refine ⟨E ++ [], I ++ [], ?_⟩
      show (OpOut.bind (get_repo_settings env org name) _).trace = _
      rw [hget]
      show Trace.append ⟨[⟨"GET", repoUrl org name, none⟩], [], []⟩
          (OpOut.bind (applyPending env name false
            (computePending mapping org name current [(k1, v1), (k2, v2)] []))
            (fun _ => (pure () : OpOut Unit))).trace
        = _
      rw [hcp, happ]
      rfl

/-- Claim C3, witness: with the generated-table fragment for the two
merge-strategy keys on `acme/r1` (observed settings empty): dropping the
unmapped key `x` changes nothing, and the two differing mapped keys yield
exactly one PATCH (after the GET) to the substituted repo endpoint carrying
both pairs. -/
theorem C3_settings_batch_one_write_witness :
    (update_repo_settings envRepoNoSettings amcMapping "acme"
        ⟨"r1", [("x", .int 1), ("allow_merge_commit", .bool true)], none,
          none, [], []⟩ true
      = update_repo_settings envRepoNoSettings amcMapping "acme"
        ⟨"r1", [("allow_merge_commit", .bool true)], none, none, [], []⟩
        true) ∧
    (∃ E I : List String,
      (update_repo_settings envRepoNoSettings amcMapping "acme"
          ⟨"r1", [("allow_merge_commit", .bool true),
            ("allow_squash_merge", .bool false)], none, none, [], []⟩
          false).trace
        = ⟨[⟨"GET", repoUrl "acme" "r1", none⟩,
            ⟨"PATCH",
              GITHUB_API_BASE_URL ++
                substEndpoint "acme" "r1" "/repos/{owner}/{repo}",
              some (.map [("allow_merge_commit", .bool true),
                ("allow_squash_merge", .bool false)])⟩], E, I⟩) := by
  constructor
  · exact (C3_settings_batch_one_write envRepoNoSettings amcMapping "acme"
      "r1" [] none none [] [] true (by decide)).1 "x" (.int 1) []
      [("allow_merge_commit", .bool true)] (Or.inl (by decide))
  · exact (C3_settings_batch_one_write envRepoNoSettings amcMapping "acme"
      "r1" [] none none [] [] false (by decide)).2 "allow_merge_commit"
      "allow_squash_merge" "repo" "allow_merge_commit" "repo"
      "allow_squash_merge" "/repos/{owner}/{repo}" "PATCH"
      "allow_merge_commit" "allow_squash_merge" (.bool true) (.bool false)
      (by decide) (by decide) (by decide) (by decide) (by decide)
      (Or.inl rfl)

theorem settingsEquiv_refl (l : List (String × Yaml)) :
    settingsEquiv l l = true := by
  simp [settingsEquiv]

theorem repoEquiv_refl (r : Repo) : repoEquiv r r = true := by
  simp [repoEquiv, settingsEquiv_refl]

theorem reposEquiv_refl (l : List Repo) : reposEquiv l l = true := by
  induction l with
  | nil => rfl
  | cons a l ih => simp [reposEquiv, repoEquiv_refl, ih]

theorem configEquiv_refl (c : Config) : configEquiv c c = true := by
  simp [configEquiv, reposEquiv_refl, settingsEquiv_refl]

/-- Claim C2, counterexample: two configurations that are structurally and
value-equal after normalization (same repo, same settings map) but whose
settings maps iterate in different orders: `diff` still reports
differences, because the normalized trees are compared (via serialized
text) with the settings-map entry order intact.  This refutes the claimed
"if and only if": `has_differences = false` is not implied by structural
equality. -/
theorem C2_counterexample :
    diff_has_differences diffLocalConfig diffGithubConfig = true ∧
    configEquiv (diffNormalize diffLocalConfig diffGithubConfig).1
      (diffNormalize diffLocalConfig diffGithubConfig).2 = true := by
  refine ⟨by decide, by decide⟩

/-- Claim C2, amended: the forward direction holds: whenever `diff` reports
no differences, the two normalized configuration trees are structurally
and value-equal (settings and extra bags compared as maps).  The converse
fails, because the final comparison is sensitive to the iteration order of
the unsorted settings maps. -/
theorem C2_diff_soundness (a b : Config)
    (h : diff_has_differences a b = false) :
    configEquiv (diffNormalize a b).1 (diffNormalize a b).2 = true := by
  have hne : ¬((diffNormalize a b).1 ≠ (diffNormalize a b).2) := by
    apply of_decide_eq_false
    simpa [diff_has_differences] using h
  rw [not_not.mp hne]
  exact configEquiv_refl _

/-- Claim C2, witness: a run of `diff` on an identical pair reports no
differences, and the amended theorem yields structural equality of the
normalized pair. -/
theorem C2_diff_soundness_witness :
    diff_has_differences diffLocalConfig diffLocalConfig = false ∧
    configEquiv (diffNormalize diffLocalConfig diffLocalConfig).1
      (diffNormalize diffLocalConfig diffLocalConfig).2 = true :=
  ⟨by decide, C2_diff_soundness diffLocalConfig diffLocalConfig (by decide)⟩

end GhConfig
